import Mathlib

/-!
# Job-Scheduler: a shallow embedding of `src/index.js`

The program keeps an in-memory array `jobs` and a counter `nextJobId`, exposes
`GET /jobs`, `POST /jobs` and `DELETE /jobs/:id`, and once a minute runs
`checkAllJobsAndRun`, which hands every due job to `runJobInWorker`.

Modelling decisions.

* The two module-level variables form the `Store`; every handler is a pure
  function from the store (and its inputs) to the new store and its outputs.
* JavaScript values that reach the handlers come from a JSON request body, so
  a number is a finite decimal; numbers are modelled by rationals (`ℚ`), on
  which `<`, `>` and `===` agree with the JavaScript operators.  `NaN` cannot
  come out of `JSON.parse`.
* Job ids are natural numbers (the counter starts at 1 and is only ever
  incremented; the embedding does not model the loss of precision of
  `nextJobId++` beyond `2^53`).
* `new Date()` is an input: a `JSDate` carries the time value (milliseconds
  since the epoch) and the offset of local time that the host applies to it.
  `checkAllJobsAndRun` reads the clock twice (once itself, once inside
  `getCurrentMinuteKey`), so it takes two `JSDate`s.
* `runJobInWorker(job.id)` is recorded as an entry of the dispatch list that
  the scan returns, in call order.
* What happens after a dispatch is modelled on the scheduling thread, where the
  listeners run: a `Scheduler` holds the store, one `WorkerRec` (promise and
  `once` listeners) per dispatch and the lines written by the `.catch`
  handlers; the events of a worker arrive as `Event.signal`, interleaved in any
  order with requests and scans.
-/

namespace JobScheduler

/-! ## JavaScript values -/

/-- A JavaScript value as it can appear in a field of a parsed JSON body or of a
job record.  `undefined` is an absent field.  `object` stands for any array or
object: the program never looks inside one. -/
inductive JVal where
  | undefined
  | null
  | bool (b : Bool)
  | num (q : ℚ)
  | str (s : String)
  | object
  deriving DecidableEq

/-- JavaScript truthiness (`!v` is its negation). -/
def JVal.truthy : JVal → Bool
  | .undefined => false
  | .null => false
  | .bool b => b
  | .num q => decide (q ≠ 0)
  | .str s => decide (s ≠ "")
  | .object => true

/-- The test `typeof v !== 'number' || v < lo || v > hi` of the POST handler. -/
def JVal.notNumberInRange (v : JVal) (lo hi : ℚ) : Bool :=
  match v with
  | .num q => decide (q < lo) || decide (q > hi)
  | _ => true

/-! ## Dates -/

/-- The result of `new Date()`: the time value in milliseconds since
1970-01-01T00:00Z, and the offset (minutes east of UTC) of the host's local time
at that time value. -/
structure JSDate where
  time : Nat
  offset : Int
  deriving DecidableEq

/-- Local time value: `LocalTime(t) = t + LocalTZA`. -/
def JSDate.localTime (d : JSDate) : Int := (d.time : Int) + d.offset * 60000

/-- `Date.prototype.getMinutes`: `MinFromTime(LocalTime(t))`. -/
def JSDate.getMinutes (d : JSDate) : Nat := (d.localTime / 60000 % 60).toNat

/-- `Date.prototype.getHours`: `HourFromTime(LocalTime(t))`. -/
def JSDate.getHours (d : JSDate) : Nat := (d.localTime / 3600000 % 24).toNat

/-- `Date.prototype.getDay`: `WeekDay(LocalTime(t))`, 0 = Sunday; day 0 of the
epoch was a Thursday. -/
def JSDate.getDay (d : JSDate) : Nat := ((d.localTime / 86400000 + 4) % 7).toNat

/-- Year, month (1..12) and day of the month (1..31) of the day number `days`
counted from 1970-01-01, in the proleptic Gregorian calendar. -/
def civilFromDays (days : Nat) : Nat × Nat × Nat :=
  let z := days + 719468
  let era := z / 146097
  let doe := z % 146097
  let yoe := (doe - doe / 1460 + doe / 36524 - doe / 146096) / 365
  let doy := doe - (365 * yoe + yoe / 4 - yoe / 100)
  let mp := (5 * doy + 2) / 153
  let d := doy - (153 * mp + 2) / 5 + 1
  let m := if mp < 10 then mp + 3 else mp - 9
  let y := yoe + era * 400 + (if m ≤ 2 then 1 else 0)
  (y, m, d)

/-- The decimal digit `n % 10` as a character. -/
def digitChar (n : Nat) : Char := Char.ofNat (48 + n % 10)

/-- A two-digit, zero-padded field. -/
def pad2 (n : Nat) : List Char := [digitChar (n / 10), digitChar n]

/-- A three-digit, zero-padded field. -/
def pad3 (n : Nat) : List Char := [digitChar (n / 100), digitChar (n / 10), digitChar n]

/-- The year of an ISO string: four digits up to 9999, the expanded form
`+YYYYYY` beyond. -/
def isoYear (y : Nat) : List Char :=
  if y ≤ 9999 then
    [digitChar (y / 1000), digitChar (y / 100), digitChar (y / 10), digitChar y]
  else
    ['+', digitChar (y / 100000), digitChar (y / 10000), digitChar (y / 1000),
      digitChar (y / 100), digitChar (y / 10), digitChar y]

/-- `Date.prototype.toISOString`: `YYYY-MM-DDTHH:mm:ss.sssZ` in UTC. -/
def JSDate.toISOString (d : JSDate) : String :=
  let t := d.time
  let ymd := civilFromDays (t / 86400000)
  String.mk (isoYear ymd.1 ++ '-' :: pad2 ymd.2.1 ++ '-' :: pad2 ymd.2.2 ++
    'T' :: pad2 (t / 3600000 % 24) ++ ':' :: pad2 (t / 60000 % 60) ++
    ':' :: pad2 (t / 1000 % 60) ++ '.' :: pad3 (t % 1000) ++ ['Z'])

/-- `s.slice(0, n)` on a string. -/
def slice0 (s : String) (n : Nat) : String := String.mk (s.data.take n)

/-- `getCurrentMinuteKey()`; `clock` is the value of the `new Date()` that the
function evaluates. -/
def getCurrentMinuteKey (clock : JSDate) : String := slice0 clock.toISOString 16

/-- Number of the calendar minute that contains a time value. -/
def JSDate.minuteIndex (d : JSDate) : Nat := d.time / 60000

/-! ## The store -/

/-- A job record, as built by the POST handler. `lastRun` is `null` (`none`) or a
minute key. -/
structure Job where
  id : Nat
  type : JVal
  minute : JVal
  hour : JVal
  dayOfWeek : JVal
  lastRun : Option String
  deriving DecidableEq

/-- The module state: `jobs` and `nextJobId`. -/
structure Store where
  jobs : List Job
  nextJobId : Nat
  deriving DecidableEq

/-- State at start-up: `const jobs = []; let nextJobId = 1;`. -/
def Store.init : Store := { jobs := [], nextJobId := 1 }

/-! ## HTTP -/

/-- The destructured request body `{ type, minute, hour, dayOfWeek }`. -/
structure ReqBody where
  type : JVal
  minute : JVal
  hour : JVal
  dayOfWeek : JVal
  deriving DecidableEq

/-- What a handler passes to `res.json`. -/
inductive Body where
  | job (j : Job)
  | error (msg : String)
  | deleted (j : Job)
  | jobs (js : List Job)
  deriving DecidableEq

/-- A response: status code and JSON body. -/
structure Response where
  status : Nat
  body : Body
  deriving DecidableEq

def msgType : String := "type must be \"hourly\", \"daily\", or \"weekly\""
def msgHourly : String := "For hourly jobs, minute must be 0–59"
def msgDaily : String := "For daily jobs, hour 0–23 and minute 0–59 are required"
def msgWeekly : String :=
  "For weekly jobs, dayOfWeek 0–6 (0=Sunday), hour 0–23, minute 0–59 are required"

/-- `['hourly', 'daily', 'weekly'].includes(type)`. -/
def includesType (type : JVal) : Bool :=
  decide (type = .str "hourly") || decide (type = .str "daily") || decide (type = .str "weekly")

/-- The object literal `newJob` of the POST handler, with `id: nextJobId++`
reading the counter of the store. -/
def newJobOf (s : Store) (req : ReqBody) : Job :=
  { id := s.nextJobId
    type := req.type
    minute := req.minute
    hour := if req.type = .str "daily" ∨ req.type = .str "weekly" then req.hour else .undefined
    dayOfWeek := if req.type = .str "weekly" then req.dayOfWeek else .undefined
    lastRun := none }

/-- `app.post('/jobs', ...)`. -/
def postJobs (s : Store) (req : ReqBody) : Store × Response :=
  let type := req.type
  let minute := req.minute
  let hour := req.hour
  let dayOfWeek := req.dayOfWeek
  if !type.truthy || !includesType type then
    (s, ⟨400, .error msgType⟩)
  else if type = .str "hourly" ∧ minute.notNumberInRange 0 59 = true then
    (s, ⟨400, .error msgHourly⟩)
  else if type = .str "daily" ∧
      (hour.notNumberInRange 0 23 || minute.notNumberInRange 0 59) = true then
    (s, ⟨400, .error msgDaily⟩)
  else if type = .str "weekly" ∧
      (dayOfWeek.notNumberInRange 0 6 || hour.notNumberInRange 0 23 ||
        minute.notNumberInRange 0 59) = true then
    (s, ⟨400, .error msgWeekly⟩)
  else
    ({ jobs := s.jobs ++ [newJobOf s req], nextJobId := s.nextJobId + 1 },
      ⟨201, .job (newJobOf s req)⟩)

/-- `jobs.findIndex(p)`; `none` is `-1`. -/
def findIndex (p : Job → Bool) : List Job → Option Nat
  | [] => none
  | j :: js => if p j then some 0 else (findIndex p js).map (· + 1)

/-- `app.delete('/jobs/:id', ...)`; `id` is the value of
`parseInt(req.params.id, 10)`, `none` being `NaN`.  `jobs.splice(idx, 1)[0]` is the
element at `idx`, which exists since `findIndex` returns an index of the array
(`findIndex_spec`); the inner `none` branch is never taken. -/
def deleteJob (s : Store) (id : Option Int) : Store × Response :=
  match findIndex (fun j => decide (id = some (j.id : Int))) s.jobs with
  | none => (s, ⟨404, .error "Job not found"⟩)
  | some idx =>
    match s.jobs.get? idx with
    | some removed => ({ s with jobs := s.jobs.eraseIdx idx }, ⟨200, .deleted removed⟩)
    | none => (s, ⟨404, .error "Job not found"⟩)

/-- `app.get('/jobs', ...)`. -/
def getJobs (s : Store) : Response := ⟨200, .jobs s.jobs⟩

/-! ## The scheduler -/

/-- The `switch (job.type)` of the scan: the value of `shouldRun`. -/
def shouldRun (curMinute curHour curDayOfWeek : Nat) (job : Job) : Bool :=
  if job.type = .str "hourly" then
    decide (JVal.num curMinute = job.minute)
  else if job.type = .str "daily" then
    decide (JVal.num curHour = job.hour) && decide (JVal.num curMinute = job.minute)
  else if job.type = .str "weekly" then
    decide (JVal.num curDayOfWeek = job.dayOfWeek) && decide (JVal.num curHour = job.hour) &&
      decide (JVal.num curMinute = job.minute)
  else
    false

/-- Whether the callback of `jobs.forEach` reaches `runJobInWorker(job.id)`. -/
def dispatches (curMinute curHour curDayOfWeek : Nat) (minuteKey : String) (job : Job) : Bool :=
  if job.lastRun = some minuteKey then false
  else shouldRun curMinute curHour curDayOfWeek job

/-- The callback of `jobs.forEach`: the job after the call and the ids handed to
`runJobInWorker` during it. -/
def visitJob (curMinute curHour curDayOfWeek : Nat) (minuteKey : String) (job : Job) :
    Job × List Nat :=
  if job.lastRun = some minuteKey then (job, [])
  else if shouldRun curMinute curHour curDayOfWeek job then
    ({ job with lastRun := some minuteKey }, [job.id])
  else (job, [])

/-- `jobs.forEach(f)` for a callback that updates the visited job in place. -/
def forEachJob (f : Job → Job × List Nat) : List Job → List Job × List Nat
  | [] => ([], [])
  | j :: js => ((f j).1 :: (forEachJob f js).1, (f j).2 ++ (forEachJob f js).2)

/-- `checkAllJobsAndRun()`: `now` is the `new Date()` of its first line, `keyNow`
the one evaluated inside `getCurrentMinuteKey()`.  Returns the store after the
scan and the ids handed to `runJobInWorker`, in call order. -/
def checkAllJobsAndRun (s : Store) (now keyNow : JSDate) : Store × List Nat :=
  let curMinute := now.getMinutes
  let curHour := now.getHours
  let curDayOfWeek := now.getDay
  let minuteKey := getCurrentMinuteKey keyNow
  let r := forEachJob (visitJob curMinute curHour curDayOfWeek minuteKey) s.jobs
  ({ s with jobs := r.1 }, r.2)

/-- `msUntilNextMinute` of `startSchedulerLoop`, from `now.getSeconds()` and
`now.getMilliseconds()`. -/
def msUntilNextMinute (seconds milliseconds : Nat) : Int :=
  (60 - (seconds : Int)) * 1000 - (milliseconds : Int)

/-! ## Runs -/

/-- An event on the scheduling thread. -/
inductive Op where
  | create (req : ReqBody)
  | delete (id : Option Int)
  | scan (now keyNow : JSDate)
  deriving DecidableEq

/-- What one event produces: the new store, the HTTP response if the event is a
request, and the ids handed to `runJobInWorker`. -/
structure Outcome where
  store : Store
  response : Option Response
  dispatched : List Nat

/-- One event. -/
def step (s : Store) : Op → Outcome
  | .create req => { store := (postJobs s req).1, response := some (postJobs s req).2,
                     dispatched := [] }
  | .delete id => { store := (deleteJob s id).1, response := some (deleteJob s id).2,
                    dispatched := [] }
  | .scan now keyNow => { store := (checkAllJobsAndRun s now keyNow).1, response := none,
                          dispatched := (checkAllJobsAndRun s now keyNow).2 }

/-- The store after a sequence of events. -/
def runOps (s : Store) : List Op → Store
  | [] => s
  | op :: ops => runOps (step s op).store ops

/-- All ids handed to `runJobInWorker` during a sequence of events, in order. -/
def dispatchLog (s : Store) : List Op → List Nat
  | [] => []
  | op :: ops => (step s op).dispatched ++ dispatchLog (step s op).store ops

/-- The ids of the records returned by the successful creates of a sequence of
events, in order. -/
def createdIds (s : Store) : List Op → List Nat
  | [] => []
  | op :: ops =>
    (match (step s op).response with
      | some ⟨201, .job j⟩ => [j.id]
      | _ => []) ++ createdIds (step s op).store ops

/-- A store that the program can be in: the result of some sequence of events
from the initial state. -/
def Reachable (s : Store) : Prop := ∃ ops, runOps Store.init ops = s

/-! ## The specification's vocabulary -/

/-- The value is a number between `lo` and `hi` (the specification's
"a number in lo..hi"). -/
def JVal.isNumberIn (v : JVal) (lo hi : ℚ) : Prop :=
  match v with
  | .num q => lo ≤ q ∧ q ≤ hi
  | _ => False

instance (v : JVal) (lo hi : ℚ) : Decidable (v.isNumberIn lo hi) := by
  unfold JVal.isNumberIn; split <;> infer_instance

/-- The value is an integer between `lo` and `hi` (the specification's
"integer lo..hi"). -/
def JVal.isIntegerIn (v : JVal) (lo hi : Nat) : Prop :=
  ∃ n : Nat, v = .num n ∧ lo ≤ n ∧ n ≤ hi

/-- A valid job specification in the words of the specification: the type is one
of the three variants, minute is a number in 0..59, hour a number in 0..23 for
daily and weekly, dayOfWeek a number in 0..6 for weekly. -/
def ValidSpec (req : ReqBody) : Prop :=
  (req.type = .str "hourly" ∨ req.type = .str "daily" ∨ req.type = .str "weekly") ∧
  req.minute.isNumberIn 0 59 ∧
  ((req.type = .str "daily" ∨ req.type = .str "weekly") → req.hour.isNumberIn 0 23) ∧
  (req.type = .str "weekly" → req.dayOfWeek.isNumberIn 0 6)

instance (req : ReqBody) : Decidable (ValidSpec req) := by
  unfold ValidSpec; infer_instance

/-- The recurrence rules in the words of the specification: hourly is due iff the
minute agrees, daily iff hour and minute agree, weekly iff day of week, hour and
minute agree. -/
def RuleMatches (now : JSDate) (job : Job) : Prop :=
  (job.type = .str "hourly" ∧ JVal.num now.getMinutes = job.minute) ∨
  (job.type = .str "daily" ∧ JVal.num now.getHours = job.hour ∧
    JVal.num now.getMinutes = job.minute) ∨
  (job.type = .str "weekly" ∧ JVal.num now.getDay = job.dayOfWeek ∧
    JVal.num now.getHours = job.hour ∧ JVal.num now.getMinutes = job.minute)

instance (now : JSDate) (job : Job) : Decidable (RuleMatches now job) := by
  unfold RuleMatches; infer_instance

/-- Type consistency of a job in the words of the specification's data model:
minute an integer in 0..59, hour an integer in 0..23 exactly for daily and weekly,
dayOfWeek an integer in 0..6 exactly for weekly. -/
def TypeConsistentInteger (j : Job) : Prop :=
  (j.type = .str "hourly" ∨ j.type = .str "daily" ∨ j.type = .str "weekly") ∧
  j.minute.isIntegerIn 0 59 ∧
  ((j.type = .str "daily" ∨ j.type = .str "weekly") → j.hour.isIntegerIn 0 23) ∧
  (j.type = .str "hourly" → j.hour = .undefined) ∧
  (j.type = .str "weekly" → j.dayOfWeek.isIntegerIn 0 6) ∧
  (j.type ≠ .str "weekly" → j.dayOfWeek = .undefined)

/-- Type consistency of a job as the POST handler enforces it: as
`TypeConsistentInteger`, with "number" in place of "integer". -/
def TypeConsistent (j : Job) : Prop :=
  (j.type = .str "hourly" ∨ j.type = .str "daily" ∨ j.type = .str "weekly") ∧
  j.minute.isNumberIn 0 59 ∧
  ((j.type = .str "daily" ∨ j.type = .str "weekly") → j.hour.isNumberIn 0 23) ∧
  (j.type = .str "hourly" → j.hour = .undefined) ∧
  (j.type = .str "weekly" → j.dayOfWeek.isNumberIn 0 6) ∧
  (j.type ≠ .str "weekly" → j.dayOfWeek = .undefined)

/-- The invariant of the stored ids: pairwise distinct and below the counter. -/
def IdsFresh (s : Store) : Prop :=
  (s.jobs.map Job.id).Nodup ∧ ∀ j ∈ s.jobs, j.id < s.nextJobId

/-! ## Start-up alignment -/

/-- `Date.prototype.getSeconds`: `SecFromTime(LocalTime(t))`. -/
def JSDate.getSeconds (d : JSDate) : Nat := (d.localTime / 1000 % 60).toNat

/-- `Date.prototype.getMilliseconds`: `msFromTime(LocalTime(t))`. -/
def JSDate.getMilliseconds (d : JSDate) : Nat := (d.localTime % 1000).toNat

/-- `startSchedulerLoop()`: the delay handed to `setTimeout`, `now` being the value
of its `new Date()`.  The first scan runs after that delay, the following ones
every 60000 ms. -/
def startSchedulerLoop (now : JSDate) : Int :=
  msUntilNextMinute now.getSeconds now.getMilliseconds

/-! ## Histories of a run -/

/-- The records returned by the successful creates of a sequence of events, in
order. -/
def createdJobs (s : Store) : List Op → List Job
  | [] => []
  | op :: ops =>
    (match (step s op).response with
      | some ⟨201, .job j⟩ => [j]
      | _ => []) ++ createdJobs (step s op).store ops

/-- The ids of the records returned by the successful deletes of a sequence of
events, in order. -/
def deletedIds (s : Store) : List Op → List Nat
  | [] => []
  | op :: ops =>
    (match (step s op).response with
      | some ⟨200, .deleted j⟩ => [j.id]
      | _ => []) ++ deletedIds (step s op).store ops

/-- The minute key of the most recent scan of a sequence of events that handed
`id` to `runJobInWorker`; `none` when no scan of the sequence did. -/
def lastDispatchKey (s : Store) : List Op → Nat → Option String
  | [], _ => none
  | op :: ops, id =>
    match lastDispatchKey (step s op).store ops id with
    | some k => some k
    | none =>
      match op with
      | .scan _ keyNow =>
        if id ∈ (step s op).dispatched then some (getCurrentMinuteKey keyNow) else none
      | _ => none

/-- A job record with its `lastRun` reset to `null`. -/
def Job.clearLastRun (j : Job) : Job := { j with lastRun := none }

/-! ## Workers -/

/-- An event that a `Worker` emits on the scheduling thread: `'message'` (with
the value of `msg.done`; the message is not `null` or `undefined`), `'error'`, or
`'exit'` with its code. -/
inductive WorkerSignal where
  | message (done : JVal)
  | error
  | exit (code : Int)
  deriving DecidableEq

/-- State of a promise. -/
inductive PromiseState where
  | pending
  | fulfilled
  | rejected
  deriving DecidableEq

/-- `resolve()`: settles a pending promise, has no effect on a settled one. -/
def PromiseState.resolve : PromiseState → PromiseState
  | .pending => .fulfilled
  | p => p

/-- `reject(err)`: settles a pending promise, has no effect on a settled one. -/
def PromiseState.reject : PromiseState → PromiseState
  | .pending => .rejected
  | p => p

/-- What `runJobInWorker(jobId)` sets up: the promise it returns and the three
`once` listeners, each attached until its event has fired. -/
structure WorkerRec where
  jobId : Nat
  promise : PromiseState
  onMessage : Bool
  onError : Bool
  onExit : Bool
  deriving DecidableEq

/-- `runJobInWorker(jobId)`: a new worker with a pending promise and the three
listeners attached. -/
def runJobInWorker (jobId : Nat) : WorkerRec :=
  { jobId := jobId, promise := .pending, onMessage := true, onError := true, onExit := true }

/-- The listeners of `runJobInWorker` on one event of the worker:
`msg => msg.done ? resolve() : reject(...)`, `reject`, and
`code => { if (code !== 0) reject(...) }`. -/
def WorkerRec.emit (w : WorkerRec) : WorkerSignal → WorkerRec
  | .message done =>
    if w.onMessage then
      { w with onMessage := false
               promise := if done.truthy then w.promise.resolve else w.promise.reject }
    else w
  | .error =>
    if w.onError then { w with onError := false, promise := w.promise.reject } else w
  | .exit code =>
    if w.onExit then
      { w with onExit := false
               promise := if code ≠ 0 then w.promise.reject else w.promise }
    else w

/-- The line that the `.catch` handler of the scan writes with `console.error`
(without the error object that follows it). -/
def failureLine (jobId : Nat) : String := "Job #" ++ toString jobId ++ " failed:"

/-- The scheduling thread: the store, the workers started so far (in dispatch
order) and the lines written by the `.catch` handlers. -/
structure Scheduler where
  store : Store
  workers : List WorkerRec
  errorLog : List String

/-- An event on the scheduling thread: a request or a scan, or an event of the
worker started by the `w`-th dispatch. -/
inductive Event where
  | op (o : Op)
  | signal (w : Nat) (sig : WorkerSignal)

/-- One event on the scheduling thread.  A request or a scan acts on the store and
starts one worker per dispatched id; an event of a worker runs the listeners of
its promise, and the `.catch` handler writes its line when the promise thereby
becomes rejected. -/
def Scheduler.step (sys : Scheduler) : Event → Scheduler
  | .op o =>
    { store := (JobScheduler.step sys.store o).store
      workers := sys.workers ++ (JobScheduler.step sys.store o).dispatched.map runJobInWorker
      errorLog := sys.errorLog }
  | .signal w sig =>
    match sys.workers.get? w with
    | none => sys
    | some r =>
      { store := sys.store
        workers := sys.workers.set w (r.emit sig)
        errorLog := sys.errorLog ++
          (if r.promise = .pending ∧ (r.emit sig).promise = .rejected then [failureLine r.jobId]
           else []) }

/-- A sequence of events on the scheduling thread. -/
def Scheduler.run (sys : Scheduler) : List Event → Scheduler
  | [] => sys
  | ev :: evs => Scheduler.run (sys.step ev) evs

/-- The requests and scans of a sequence of events. -/
def opsOf : List Event → List Op
  | [] => []
  | .op o :: evs => o :: opsOf evs
  | .signal _ _ :: evs => opsOf evs

/-- The scheduling thread at start-up. -/
def Scheduler.start : Scheduler := { store := Store.init, workers := [], errorLog := [] }

/-- A failure signal as the listeners of `runJobInWorker` tell it: a message
whose `done` is falsy, an error event, or an exit with a non-zero code. -/
def WorkerSignal.isFailure : WorkerSignal → Bool
  | .message done => !done.truthy
  | .error => true
  | .exit code => decide (code ≠ 0)

/-- A success signal as the listeners of `runJobInWorker` tell it: a message
whose `done` is truthy. -/
def WorkerSignal.isSuccess : WorkerSignal → Bool
  | .message done => done.truthy
  | _ => false

/-- A failure signal in the words of the specification: a message without
`done == true`, an error event, or an exit with a non-zero code. -/
def WorkerSignal.isFailureSpec : WorkerSignal → Bool
  | .message done => decide (done ≠ .bool true)
  | .error => true
  | .exit code => decide (code ≠ 0)

/-- The promise of the worker started by the `w`-th dispatch. -/
def Scheduler.promiseOf (sys : Scheduler) (w : Nat) : Option PromiseState :=
  (sys.workers.get? w).map WorkerRec.promise

/-! ## Lemmas on the minute key -/

theorem getCurrentMinuteKey_congr (d1 d2 : JSDate) (h : d1.minuteIndex = d2.minuteIndex) :
    getCurrentMinuteKey d1 = getCurrentMinuteKey d2 := by
  unfold JSDate.minuteIndex at h
  have hD : d1.time / 86400000 = d2.time / 86400000 := by omega
  have hH : d1.time / 3600000 = d2.time / 3600000 := by omega
  simp only [getCurrentMinuteKey, slice0, JSDate.toISOString, hD, hH, h]
  generalize civilFromDays (d2.time / 86400000) = ymd
  by_cases hy : ymd.1 ≤ 9999 <;> simp [isoYear, hy, pad2, pad3]

/-! ## Lemmas on the scan -/

theorem visitJob_fst (cm ch cd : Nat) (key : String) (j : Job) :
    (visitJob cm ch cd key j).1 =
      if dispatches cm ch cd key j then { j with lastRun := some key } else j := by
  unfold visitJob dispatches
  by_cases h1 : j.lastRun = some key
  · simp [h1]
  · by_cases h2 : shouldRun cm ch cd j = true <;> simp [h1, h2]

theorem visitJob_snd (cm ch cd : Nat) (key : String) (j : Job) :
    (visitJob cm ch cd key j).2 = if dispatches cm ch cd key j then [j.id] else [] := by
  unfold visitJob dispatches
  by_cases h1 : j.lastRun = some key
  · simp [h1]
  · by_cases h2 : shouldRun cm ch cd j = true <;> simp [h1, h2]

theorem visitJob_id (cm ch cd : Nat) (key : String) (j : Job) :
    (visitJob cm ch cd key j).1.id = j.id := by
  rw [visitJob_fst]; split <;> rfl

theorem forEachJob_fst (f : Job → Job × List Nat) (l : List Job) :
    (forEachJob f l).1 = l.map (fun j => (f j).1) := by
  induction l with
  | nil => rfl
  | cons j js ih => simp [forEachJob, ih]

theorem forEachJob_visit_snd (cm ch cd : Nat) (key : String) (l : List Job) :
    (forEachJob (visitJob cm ch cd key) l).2 =
      (l.filter (dispatches cm ch cd key)).map Job.id := by
  induction l with
  | nil => rfl
  | cons j js ih =>
    simp only [forEachJob, ih, visitJob_snd]
    by_cases h : dispatches cm ch cd key j = true <;> simp [h, List.filter_cons]

theorem dispatches_iff (now : JSDate) (key : String) (j : Job) :
    dispatches now.getMinutes now.getHours now.getDay key j = true ↔
      j.lastRun ≠ some key ∧ RuleMatches now j := by
  unfold dispatches shouldRun RuleMatches
  by_cases h0 : j.lastRun = some key
  · simp [h0]
  · by_cases h1 : j.type = .str "hourly"
    · simp [h0, h1]
    · by_cases h2 : j.type = .str "daily"
      · simp [h0, h2]
      · by_cases h3 : j.type = .str "weekly"
        · simp [h0, h3, and_assoc]
        · simp [h0, h1, h2, h3]

theorem scan_jobs (s : Store) (now keyNow : JSDate) :
    (checkAllJobsAndRun s now keyNow).1.jobs =
      s.jobs.map (fun j =>
        if dispatches now.getMinutes now.getHours now.getDay (getCurrentMinuteKey keyNow) j
        then { j with lastRun := some (getCurrentMinuteKey keyNow) } else j) := by
  simp only [checkAllJobsAndRun, forEachJob_fst, visitJob_fst]

theorem scan_dispatched (s : Store) (now keyNow : JSDate) :
    (checkAllJobsAndRun s now keyNow).2 =
      (s.jobs.filter
        (dispatches now.getMinutes now.getHours now.getDay (getCurrentMinuteKey keyNow))).map
        Job.id := by
  simp only [checkAllJobsAndRun, forEachJob_visit_snd]

theorem scan_ids (s : Store) (now keyNow : JSDate) :
    (checkAllJobsAndRun s now keyNow).1.jobs.map Job.id = s.jobs.map Job.id := by
  rw [scan_jobs, List.map_map]
  apply List.map_congr_left
  intro j _
  simp only [Function.comp]
  split <;> rfl

theorem scan_nextJobId (s : Store) (now keyNow : JSDate) :
    (checkAllJobsAndRun s now keyNow).1.nextJobId = s.nextJobId := rfl

/-! ## Lemmas on the POST handler -/

theorem notNumberInRange_eq_false (v : JVal) (lo hi : ℚ) :
    v.notNumberInRange lo hi = false ↔ v.isNumberIn lo hi := by
  cases v <;> simp [JVal.notNumberInRange, JVal.isNumberIn]

theorem notNumberInRange_eq_true (v : JVal) (lo hi : ℚ) :
    v.notNumberInRange lo hi = true ↔ ¬ v.isNumberIn lo hi := by
  rw [← notNumberInRange_eq_false]; simp

theorem postJobs_of_valid (s : Store) (req : ReqBody) (h : ValidSpec req) :
    postJobs s req =
      ({ jobs := s.jobs ++ [newJobOf s req], nextJobId := s.nextJobId + 1 },
        ⟨201, .job (newJobOf s req)⟩) := by
  obtain ⟨ht, hm, hh, hd⟩ := h
  have hm2 := (notNumberInRange_eq_false _ _ _).mpr hm
  rcases ht with ht | ht | ht
  · simp [postJobs, newJobOf, ht, JVal.truthy, includesType, hm2]
  · have hh2 := (notNumberInRange_eq_false _ _ _).mpr (hh (Or.inl ht))
    simp [postJobs, newJobOf, ht, JVal.truthy, includesType, hm2, hh2]
  · have hh2 := (notNumberInRange_eq_false _ _ _).mpr (hh (Or.inr ht))
    have hd2 := (notNumberInRange_eq_false _ _ _).mpr (hd ht)
    simp [postJobs, newJobOf, ht, JVal.truthy, includesType, hm2, hh2, hd2]

theorem postJobs_of_invalid (s : Store) (req : ReqBody) (h : ¬ ValidSpec req) :
    (postJobs s req).1 = s ∧ (postJobs s req).2.status = 400 ∧
      ∃ msg, (postJobs s req).2.body = .error msg := by
  unfold postJobs
  simp only []
  split
  · exact ⟨rfl, rfl, _, rfl⟩
  · split
    · exact ⟨rfl, rfl, _, rfl⟩
    · split
      · exact ⟨rfl, rfl, _, rfl⟩
      · split
        · exact ⟨rfl, rfl, _, rfl⟩
        · rename_i h0 h1 h2 h3
          exfalso
          apply h
          simp only [Bool.or_eq_true, Bool.not_eq_true', not_or, Bool.not_eq_false,
            includesType, decide_eq_true_eq] at h0
          simp only [not_and, Bool.or_eq_true, not_or, Bool.not_eq_true,
            notNumberInRange_eq_false] at h1 h2 h3
          obtain ⟨_, ht⟩ := h0
          rcases ht with (ht | ht) | ht
          · refine ⟨Or.inl ht, h1 ht, ?_, ?_⟩
            · intro h'; rcases h' with h' | h' <;> rw [ht] at h' <;> simp at h'
            · intro h'; rw [ht] at h'; simp at h'
          · refine ⟨Or.inr (Or.inl ht), (h2 ht).2, fun _ => (h2 ht).1, ?_⟩
            intro h'; rw [ht] at h'; simp at h'
          · exact ⟨Or.inr (Or.inr ht), (h3 ht).2, fun _ => (h3 ht).1.2, fun _ => (h3 ht).1.1⟩

/-! ## Lemmas on the DELETE handler -/

theorem findIndex_spec (p : Job → Bool) (l : List Job) :
    (findIndex p l = none ∧ ∀ j ∈ l, p j = false) ∨
    (∃ idx r, findIndex p l = some idx ∧ l.get? idx = some r ∧ r ∈ l ∧ p r = true ∧
      l.eraseIdx idx = l.eraseP p) := by
  induction l with
  | nil => left; simp [findIndex]
  | cons j js ih =>
    by_cases hp : p j = true
    · right
      exact ⟨0, j, by simp [findIndex, hp], rfl, by simp, hp, by simp [hp]⟩
    · rcases ih with ⟨h1, h2⟩ | ⟨idx, r, h1, h2, h3, h4, h5⟩
      · left
        refine ⟨by simp [findIndex, hp, h1], ?_⟩
        intro x hx
        rcases List.mem_cons.mp hx with rfl | hx
        · simpa using hp
        · exact h2 x hx
      · right
        exact ⟨idx + 1, r, by simp [findIndex, hp, h1], by simpa using h2,
          List.mem_cons_of_mem _ h3, h4, by simp [hp, h5]⟩

theorem deleteJob_cases (s : Store) (id : Option Int) :
    ((∀ j ∈ s.jobs, id ≠ some (j.id : Int)) ∧
      deleteJob s id = (s, ⟨404, .error "Job not found"⟩)) ∨
    (∃ r, r ∈ s.jobs ∧ id = some (r.id : Int) ∧
      deleteJob s id =
        ({ s with jobs := s.jobs.eraseP (fun j => decide (id = some (j.id : Int))) },
          ⟨200, .deleted r⟩)) := by
  rcases findIndex_spec (fun j => decide (id = some (j.id : Int))) s.jobs with
    ⟨h1, h2⟩ | ⟨idx, r, h1, h2, h3, h4, h5⟩
  · left
    refine ⟨fun j hj => by simpa using h2 j hj, ?_⟩
    simp [deleteJob, h1]
  · right
    refine ⟨r, h3, by simpa using h4, ?_⟩
    simp only [deleteJob, h1, h2, h5]

theorem deleteJob_nextJobId (s : Store) (id : Option Int) :
    (deleteJob s id).1.nextJobId = s.nextJobId := by
  rcases deleteJob_cases s id with ⟨_, h⟩ | ⟨r, _, _, h⟩ <;> rw [h]

theorem deleteJob_sublist (s : Store) (id : Option Int) :
    List.Sublist (deleteJob s id).1.jobs s.jobs := by
  rcases deleteJob_cases s id with ⟨_, h⟩ | ⟨r, _, _, h⟩
  · rw [h]
  · rw [h]
    exact List.eraseP_sublist _

theorem eraseP_id_eq_filter (n : Nat) (id : Option Int) (hid : id = some (n : Int)) :
    ∀ l : List Job, (l.map Job.id).Nodup →
      l.eraseP (fun j => decide (id = some (j.id : Int))) =
        l.filter (fun j => decide (j.id ≠ n)) := by
  subst hid
  intro l
  induction l with
  | nil => intro _; rfl
  | cons j js ih =>
    intro hnd
    rw [List.map_cons, List.nodup_cons] at hnd
    by_cases hj : j.id = n
    · have hnot : ∀ x ∈ js, x.id ≠ n := by
        intro x hx hxn
        exact hnd.1 (List.mem_map.mpr ⟨x, hx, by rw [hxn, hj]⟩)
      have hfil : js.filter (fun j => decide (j.id ≠ n)) = js := by
        rw [List.filter_eq_self]
        intro x hx
        simpa using hnot x hx
      have hp : decide (some (n : Int) = some (j.id : Int)) = true := by simp [hj]
      have hq : decide (j.id ≠ n) = false := by simp [hj]
      rw [List.eraseP_cons, List.filter_cons]
      simp only [hp, hq, hfil, cond_true]
      simp
    · have hp : decide (some (n : Int) = some (j.id : Int)) = false := by
        simp only [decide_eq_false_iff_not, Option.some.injEq]
        intro h; exact hj (by exact_mod_cast h.symm)
      have hq : decide (j.id ≠ n) = true := by simp [hj]
      rw [List.eraseP_cons, List.filter_cons]
      simp only [hp, hq, ih hnd.2, cond_false, if_true]

/-! ## Invariants of the store -/

theorem postJobs_invalid_eq (s : Store) (req : ReqBody) (h : ¬ ValidSpec req) :
    ∃ msg, postJobs s req = (s, ⟨400, .error msg⟩) := by
  obtain ⟨h1, h2, msg, h3⟩ := postJobs_of_invalid s req h
  refine ⟨msg, ?_⟩
  rcases hp : postJobs s req with ⟨s1, ⟨st, b⟩⟩
  rw [hp] at h1 h2 h3
  simp only at h1 h2 h3
  rw [h1, h2, h3]

theorem idsFresh_init : IdsFresh Store.init := by
  simp [IdsFresh, Store.init]

theorem idsFresh_postJobs (s : Store) (req : ReqBody) (h : IdsFresh s) :
    IdsFresh (postJobs s req).1 := by
  by_cases hv : ValidSpec req
  · rw [postJobs_of_valid s req hv]
    obtain ⟨h1, h2⟩ := h
    constructor
    · simp only [List.map_append, List.map_cons, List.map_nil]
      rw [List.nodup_append]
      refine ⟨h1, List.nodup_singleton _, ?_⟩
      intro a ha hb
      rw [List.mem_singleton] at hb
      subst hb
      obtain ⟨j, hj, hje⟩ := List.mem_map.mp ha
      have := h2 j hj
      simp only [newJobOf] at hje
      omega
    · intro j hj
      simp only [List.mem_append, List.mem_singleton] at hj
      rcases hj with hj | hj
      · have := h2 j hj
        simp only
        omega
      · subst hj
        simp [newJobOf]
  · obtain ⟨msg, hm⟩ := postJobs_invalid_eq s req hv
    rw [hm]; exact h

theorem idsFresh_deleteJob (s : Store) (id : Option Int) (h : IdsFresh s) :
    IdsFresh (deleteJob s id).1 := by
  obtain ⟨h1, h2⟩ := h
  have hsub := deleteJob_sublist s id
  refine ⟨List.Nodup.sublist (hsub.map Job.id) h1, ?_⟩
  intro j hj
  rw [deleteJob_nextJobId]
  exact h2 j (hsub.subset hj)

theorem mem_scan_jobs (s : Store) (now keyNow : JSDate) (j : Job)
    (hj : j ∈ (checkAllJobsAndRun s now keyNow).1.jobs) :
    ∃ j0 ∈ s.jobs, j0.id = j.id ∧
      ((dispatches now.getMinutes now.getHours now.getDay (getCurrentMinuteKey keyNow) j0 = true ∧
          j = { j0 with lastRun := some (getCurrentMinuteKey keyNow) }) ∨
        (dispatches now.getMinutes now.getHours now.getDay (getCurrentMinuteKey keyNow) j0 = false ∧
          j = j0)) := by
  rw [scan_jobs] at hj
  obtain ⟨j0, hj0, he⟩ := List.mem_map.mp hj
  refine ⟨j0, hj0, ?_⟩
  by_cases hd : dispatches now.getMinutes now.getHours now.getDay
      (getCurrentMinuteKey keyNow) j0 = true
  · simp only [hd, if_true] at he
    subst he
    exact ⟨rfl, Or.inl ⟨hd, rfl⟩⟩
  · simp only [hd] at he
    simp only [Bool.false_eq_true, if_false] at he
    subst he
    exact ⟨rfl, Or.inr ⟨by simpa using hd, rfl⟩⟩

theorem idsFresh_scan (s : Store) (now keyNow : JSDate) (h : IdsFresh s) :
    IdsFresh (checkAllJobsAndRun s now keyNow).1 := by
  obtain ⟨h1, h2⟩ := h
  refine ⟨by rw [scan_ids]; exact h1, ?_⟩
  intro j hj
  obtain ⟨j0, hj0, he, _⟩ := mem_scan_jobs s now keyNow j hj
  rw [scan_nextJobId, ← he]
  exact h2 j0 hj0

theorem idsFresh_step (s : Store) (op : Op) (h : IdsFresh s) : IdsFresh (step s op).store := by
  cases op with
  | create req => exact idsFresh_postJobs s req h
  | delete id => exact idsFresh_deleteJob s id h
  | scan now keyNow => exact idsFresh_scan s now keyNow h

theorem idsFresh_runOps (ops : List Op) : ∀ s : Store, IdsFresh s → IdsFresh (runOps s ops) := by
  induction ops with
  | nil => intro s h; exact h
  | cons op ops ih => intro s h; exact ih _ (idsFresh_step s op h)

theorem idsFresh_of_reachable (s : Store) (h : Reachable s) : IdsFresh s := by
  obtain ⟨ops, rfl⟩ := h
  exact idsFresh_runOps ops _ idsFresh_init

theorem runOps_append (ops1 ops2 : List Op) :
    ∀ s : Store, runOps s (ops1 ++ ops2) = runOps (runOps s ops1) ops2 := by
  induction ops1 with
  | nil => intro s; rfl
  | cons op ops ih => intro s; exact ih _

theorem reachable_step (s : Store) (op : Op) (h : Reachable s) : Reachable (step s op).store := by
  obtain ⟨ops, rfl⟩ := h
  exact ⟨ops ++ [op], by rw [runOps_append]; rfl⟩

theorem typeConsistent_newJobOf (s : Store) (req : ReqBody) (h : ValidSpec req) :
    TypeConsistent (newJobOf s req) := by
  obtain ⟨ht, hm, hh, hd⟩ := h
  refine ⟨ht, hm, ?_, ?_, ?_, ?_⟩
  · intro h'
    have h1 : req.type = .str "daily" ∨ req.type = .str "weekly" := h'
    have : (newJobOf s req).hour = req.hour := by
      simp only [newJobOf]; rw [if_pos h1]
    rw [this]; exact hh h1
  · intro h'
    have h1 : req.type = .str "hourly" := h'
    simp [newJobOf, h1]
  · intro h'
    have h1 : req.type = .str "weekly" := h'
    have : (newJobOf s req).dayOfWeek = req.dayOfWeek := by
      simp only [newJobOf]; rw [if_pos h1]
    rw [this]; exact hd h1
  · intro h'
    have h1 : ¬ req.type = .str "weekly" := h'
    simp [newJobOf, h1]

theorem typeConsistent_step (s : Store) (op : Op) (h : ∀ j ∈ s.jobs, TypeConsistent j) :
    ∀ j ∈ (step s op).store.jobs, TypeConsistent j := by
  cases op with
  | create req =>
    by_cases hv : ValidSpec req
    · intro j hj
      simp only [step, postJobs_of_valid s req hv, List.mem_append, List.mem_singleton] at hj
      rcases hj with hj | hj
      · exact h j hj
      · subst hj; exact typeConsistent_newJobOf s req hv
    · obtain ⟨msg, hm⟩ := postJobs_invalid_eq s req hv
      simp only [step, hm]
      exact h
  | delete id =>
    intro j hj
    exact h j ((deleteJob_sublist s id).subset hj)
  | scan now keyNow =>
    intro j hj
    obtain ⟨j0, hj0, _, hc⟩ := mem_scan_jobs s now keyNow j hj
    rcases hc with ⟨_, hc⟩ | ⟨_, hc⟩
    · rw [hc]; exact h j0 hj0
    · rw [hc]; exact h j0 hj0

theorem typeConsistent_runOps (ops : List Op) :
    ∀ s : Store, (∀ j ∈ s.jobs, TypeConsistent j) →
      ∀ j ∈ (runOps s ops).jobs, TypeConsistent j := by
  induction ops with
  | nil => intro s h; exact h
  | cons op ops ih => intro s h; exact ih _ (typeConsistent_step s op h)

/-! ## Lemmas on runs -/

theorem createdIds_create_valid (s : Store) (req : ReqBody) (ops : List Op)
    (hv : ValidSpec req) :
    createdIds s (.create req :: ops) =
      s.nextJobId :: createdIds (postJobs s req).1 ops := by
  simp only [createdIds, step, postJobs_of_valid s req hv]
  rfl

theorem createdIds_create_invalid (s : Store) (req : ReqBody) (ops : List Op)
    (hv : ¬ ValidSpec req) :
    createdIds s (.create req :: ops) = createdIds s ops := by
  obtain ⟨msg, hm⟩ := postJobs_invalid_eq s req hv
  simp only [createdIds, step, hm]
  rfl

theorem createdIds_delete (s : Store) (id : Option Int) (ops : List Op) :
    createdIds s (.delete id :: ops) = createdIds (deleteJob s id).1 ops := by
  rcases deleteJob_cases s id with ⟨_, h⟩ | ⟨r, _, _, h⟩
  · simp only [createdIds, step, h]; rfl
  · simp only [createdIds, step, h]; rfl

theorem createdIds_scan (s : Store) (now keyNow : JSDate) (ops : List Op) :
    createdIds s (.scan now keyNow :: ops) =
      createdIds (checkAllJobsAndRun s now keyNow).1 ops := by
  simp only [createdIds, step]; rfl

theorem createdIds_bounds (ops : List Op) :
    ∀ s : Store, List.Pairwise (· < ·) (createdIds s ops) ∧
      (∀ id ∈ createdIds s ops, s.nextJobId ≤ id ∧ id < (runOps s ops).nextJobId) ∧
      s.nextJobId ≤ (runOps s ops).nextJobId := by
  induction ops with
  | nil => intro s; simp [createdIds, runOps]
  | cons op ops ih =>
    intro s
    cases op with
    | create req =>
      by_cases hv : ValidSpec req
      · obtain ⟨h1, h2, h3⟩ := ih (postJobs s req).1
        have hn : (postJobs s req).1.nextJobId = s.nextJobId + 1 := by
          rw [postJobs_of_valid s req hv]
        rw [createdIds_create_valid s req ops hv]
        simp only [runOps, step]
        rw [hn] at h2 h3
        refine ⟨List.pairwise_cons.mpr ⟨?_, h1⟩, ?_, by omega⟩
        · intro a ha
          have := (h2 a ha).1
          omega
        · intro a ha
          rcases List.mem_cons.mp ha with rfl | ha
          · omega
          · have := h2 a ha
            omega
      · obtain ⟨msg, hm⟩ := postJobs_invalid_eq s req hv
        rw [createdIds_create_invalid s req ops hv]
        simp only [runOps, step, hm]
        exact ih s
    | delete id =>
      have hn := deleteJob_nextJobId s id
      obtain ⟨h1, h2, h3⟩ := ih (deleteJob s id).1
      rw [createdIds_delete]
      simp only [runOps, step]
      rw [hn] at h2 h3
      exact ⟨h1, h2, h3⟩
    | scan now keyNow =>
      obtain ⟨h1, h2, h3⟩ := ih (checkAllJobsAndRun s now keyNow).1
      rw [createdIds_scan]
      simp only [runOps, step]
      rw [scan_nextJobId] at h2 h3
      exact ⟨h1, h2, h3⟩

theorem stored_ids_created (ops : List Op) :
    ∀ s : Store, ∀ j ∈ (runOps s ops).jobs,
      j.id ∈ s.jobs.map Job.id ∨ j.id ∈ createdIds s ops := by
  induction ops with
  | nil =>
    intro s j hj
    exact Or.inl (List.mem_map.mpr ⟨j, hj, rfl⟩)
  | cons op ops ih =>
    intro s j hj
    cases op with
    | create req =>
      by_cases hv : ValidSpec req
      · rw [createdIds_create_valid s req ops hv]
        rcases ih (postJobs s req).1 j hj with h | h
        · rw [postJobs_of_valid s req hv] at h
          simp only [List.map_append, List.mem_append, List.map_cons, List.map_nil,
            List.mem_singleton] at h
          rcases h with h | h
          · exact Or.inl h
          · right; rw [h]; simp [newJobOf]
        · exact Or.inr (List.mem_cons_of_mem _ h)
      · obtain ⟨msg, hm⟩ := postJobs_invalid_eq s req hv
        rw [createdIds_create_invalid s req ops hv]
        simp only [runOps, step, hm] at hj
        exact ih s j hj
    | delete id =>
      rw [createdIds_delete]
      rcases ih (deleteJob s id).1 j hj with h | h
      · exact Or.inl (((deleteJob_sublist s id).map Job.id).subset h)
      · exact Or.inr h
    | scan now keyNow =>
      rw [createdIds_scan]
      rcases ih (checkAllJobsAndRun s now keyNow).1 j hj with h | h
      · rw [scan_ids] at h; exact Or.inl h
      · exact Or.inr h

theorem step_ids_sublist (s : Store) (op : Op) :
    List.Sublist ((step s op).store.jobs.map Job.id) (s.jobs.map Job.id ++ [s.nextJobId]) := by
  cases op with
  | create req =>
    by_cases hv : ValidSpec req
    · simp only [step, postJobs_of_valid s req hv, List.map_append, List.map_cons, List.map_nil]
      exact List.Sublist.refl _
    · obtain ⟨msg, hm⟩ := postJobs_invalid_eq s req hv
      simp only [step, hm]
      exact List.sublist_append_left _ _
  | delete id =>
    exact ((deleteJob_sublist s id).map Job.id).trans (List.sublist_append_left _ _)
  | scan now keyNow =>
    simp only [step, scan_ids]
    exact List.sublist_append_left _ _

theorem absent_never_dispatched (id : Nat) (ops : List Op) :
    ∀ s : Store, (∀ j ∈ s.jobs, j.id ≠ id) → id < s.nextJobId → id ∉ dispatchLog s ops := by
  induction ops with
  | nil => intro s _ _; simp [dispatchLog]
  | cons op ops ih =>
    intro s h1 h2
    simp only [dispatchLog, List.mem_append, not_or]
    cases op with
    | create req =>
      refine ⟨by simp [step], ?_⟩
      apply ih
      · by_cases hv : ValidSpec req
        · intro j hj
          simp only [step, postJobs_of_valid s req hv, List.mem_append,
            List.mem_singleton] at hj
          rcases hj with hj | hj
          · exact h1 j hj
          · subst hj
            simp only [newJobOf]
            omega
        · obtain ⟨msg, hm⟩ := postJobs_invalid_eq s req hv
          simp only [step, hm]
          exact h1
      · by_cases hv : ValidSpec req
        · simp only [step, postJobs_of_valid s req hv]
          omega
        · obtain ⟨msg, hm⟩ := postJobs_invalid_eq s req hv
          simp only [step, hm]
          exact h2
    | delete id2 =>
      refine ⟨by simp [step], ?_⟩
      apply ih
      · intro j hj
        exact h1 j ((deleteJob_sublist s id2).subset hj)
      · simp only [step, deleteJob_nextJobId]
        exact h2
    | scan now keyNow =>
      constructor
      · simp only [step, scan_dispatched]
        intro hmem
        obtain ⟨j, hj, hje⟩ := List.mem_map.mp hmem
        exact h1 j (List.mem_filter.mp hj).1 hje
      · apply ih
        · intro j hj
          obtain ⟨j0, hj0, he, _⟩ := mem_scan_jobs s now keyNow j hj
          rw [← he]
          exact h1 j0 hj0
        · exact h2

theorem deleteJob_of_mem (s : Store) (h : IdsFresh s) (r : Job) (hr : r ∈ s.jobs) :
    deleteJob s (some (r.id : Int)) =
      ({ s with jobs := s.jobs.filter (fun j => decide (j.id ≠ r.id)) }, ⟨200, .deleted r⟩) := by
  rcases deleteJob_cases s (some (r.id : Int)) with ⟨h1, _⟩ | ⟨r2, hr2, he, hd⟩
  · exact absurd rfl (h1 r hr)
  · have hid : r.id = r2.id := by
      have := Option.some.inj he
      exact_mod_cast this
    have hrr : r = r2 := List.inj_on_of_nodup_map h.1 hr hr2 hid
    rw [hd, eraseP_id_eq_filter r.id _ rfl s.jobs h.1, ← hrr]

theorem dispatchLog_nodup (K : String) (ops : List Op) :
    ∀ s : Store, IdsFresh s →
      (∀ now keyNow, Op.scan now keyNow ∈ ops → getCurrentMinuteKey keyNow = K) →
      (dispatchLog s ops).Nodup ∧
      ∀ id ∈ dispatchLog s ops,
        (∃ j ∈ s.jobs, j.id = id ∧ j.lastRun ≠ some K) ∨ s.nextJobId ≤ id := by
  induction ops with
  | nil => intro s _ _; simp [dispatchLog]
  | cons op ops ih =>
    intro s hs hK
    have hK2 : ∀ now keyNow, Op.scan now keyNow ∈ ops → getCurrentMinuteKey keyNow = K :=
      fun now keyNow hm => hK now keyNow (List.mem_cons_of_mem _ hm)
    obtain ⟨ih1, ih2⟩ := ih (step s op).store (idsFresh_step s op hs) hK2
    cases op with
    | create req =>
      simp only [dispatchLog, step, List.nil_append] at ih1 ih2 ⊢
      refine ⟨ih1, ?_⟩
      intro id hid
      by_cases hv : ValidSpec req
      · rw [postJobs_of_valid s req hv] at ih2 hid
        rcases ih2 id hid with ⟨j, hj, hje, hjl⟩ | hge
        · simp only [List.mem_append, List.mem_singleton] at hj
          rcases hj with hj | hj
          · exact Or.inl ⟨j, hj, hje, hjl⟩
          · right
            rw [← hje, hj]
            simp [newJobOf]
        · right
          simp only at hge
          omega
      · obtain ⟨msg, hm⟩ := postJobs_invalid_eq s req hv
        rw [hm] at ih2 hid
        exact ih2 id hid
    | delete id2 =>
      simp only [dispatchLog, step, List.nil_append] at ih1 ih2 ⊢
      refine ⟨ih1, ?_⟩
      intro id hid
      rcases ih2 id hid with ⟨j, hj, hje, hjl⟩ | hge
      · exact Or.inl ⟨j, (deleteJob_sublist s id2).subset hj, hje, hjl⟩
      · right
        rw [deleteJob_nextJobId] at hge
        exact hge
    | scan now keyNow =>
      have hk : getCurrentMinuteKey keyNow = K := hK now keyNow (List.mem_cons_self _ _)
      simp only [dispatchLog, step] at ih1 ih2 ⊢
      -- what the tail of the run can still dispatch, seen from the store before the scan
      have tail : ∀ id ∈ dispatchLog (checkAllJobsAndRun s now keyNow).1 ops,
          (∃ j ∈ s.jobs, j.id = id ∧ j.lastRun ≠ some K ∧
            dispatches now.getMinutes now.getHours now.getDay K j = false) ∨
          s.nextJobId ≤ id := by
        intro id hid
        rcases ih2 id hid with ⟨j, hj, hje, hjl⟩ | hge
        · obtain ⟨j0, hj0, he, hc⟩ := mem_scan_jobs s now keyNow j hj
          rw [hk] at hc
          rcases hc with ⟨_, hc⟩ | ⟨hd, hc⟩
          · exact absurd (by rw [hc]) hjl
          · rw [hc] at hje hjl
            exact Or.inl ⟨j0, hj0, hje, hjl, hd⟩
        · exact Or.inr hge
      have head : ∀ id ∈ (checkAllJobsAndRun s now keyNow).2,
          ∃ j ∈ s.jobs, j.id = id ∧ j.lastRun ≠ some K ∧
            dispatches now.getMinutes now.getHours now.getDay K j = true := by
        intro id hid
        rw [scan_dispatched, hk] at hid
        obtain ⟨j, hj, hje⟩ := List.mem_map.mp hid
        obtain ⟨hj1, hj2⟩ := List.mem_filter.mp hj
        exact ⟨j, hj1, hje, ((dispatches_iff now K j).mp hj2).1, hj2⟩
      constructor
      · rw [List.nodup_append]
        refine ⟨?_, ih1, ?_⟩
        · rw [scan_dispatched]
          exact List.Nodup.sublist ((List.filter_sublist _).map Job.id) hs.1
        · intro id h1 h2
          obtain ⟨j, hj, hje, _, hd⟩ := head id h1
          rcases tail id h2 with ⟨j2, hj2, hje2, _, hd2⟩ | hge
          · have : j = j2 := List.inj_on_of_nodup_map hs.1 hj hj2 (by rw [hje, hje2])
            rw [this, hd2] at hd
            exact Bool.noConfusion hd
          · have := hs.2 j hj
            omega
      · intro id hid
        rcases List.mem_append.mp hid with h1 | h2
        · obtain ⟨j, hj, hje, hjl, _⟩ := head id h1
          exact Or.inl ⟨j, hj, hje, hjl⟩
        · rcases tail id h2 with ⟨j2, hj2, hje2, hjl2, _⟩ | hge
          · exact Or.inl ⟨j2, hj2, hje2, hjl2⟩
          · exact Or.inr hge

/-! ## C1 -/

/-- At most once per minute key: starting from any reachable store, in a sequence
of create, delete and scan events in which both clock reads of every scan fall in
one calendar minute `m`, every job id is handed to `runJobInWorker` at most once
over the whole sequence.  Only the read made inside `getCurrentMinuteKey` matters
to the proof: the deduplication is per key, not per minute of `now`. -/
theorem dispatched_at_most_once_per_minute (s : Store) (hs : Reachable s) (ops : List Op)
    (m : Nat)
    (hm : ∀ now keyNow, Op.scan now keyNow ∈ ops →
      now.minuteIndex = m ∧ keyNow.minuteIndex = m)
    (id : Nat) :
    (dispatchLog s ops).count id ≤ 1 := by
  have hK : ∀ now keyNow, Op.scan now keyNow ∈ ops →
      getCurrentMinuteKey keyNow = getCurrentMinuteKey ⟨m * 60000, 0⟩ := by
    intro now keyNow hmem
    apply getCurrentMinuteKey_congr
    rw [(hm now keyNow hmem).2]
    simp [JSDate.minuteIndex]
  exact List.nodup_iff_count_le_one.mp
    (dispatchLog_nodup _ ops s (idsFresh_of_reachable s hs) hK).1 id

/-- The previous theorem on a run: an hourly job for minute 1 is created, then
scanned three times between 2024-01-01T00:01:00.000Z and 00:01:59.999Z, with a
second job created in between; each of the two ids is dispatched once. -/
theorem dispatched_at_most_once_per_minute_witness :
    dispatchLog Store.init
        [.create ⟨.str "hourly", .num 1, .undefined, .undefined⟩,
         .scan ⟨1704067260000, 0⟩ ⟨1704067260001, 0⟩,
         .scan ⟨1704067290000, 0⟩ ⟨1704067290000, 0⟩,
         .create ⟨.str "daily", .num 1, .num 0, .undefined⟩,
         .scan ⟨1704067319998, 0⟩ ⟨1704067319999, 0⟩] = [1, 2] ∧
    (dispatchLog Store.init
        [.create ⟨.str "hourly", .num 1, .undefined, .undefined⟩,
         .scan ⟨1704067260000, 0⟩ ⟨1704067260001, 0⟩,
         .scan ⟨1704067290000, 0⟩ ⟨1704067290000, 0⟩,
         .create ⟨.str "daily", .num 1, .num 0, .undefined⟩,
         .scan ⟨1704067319998, 0⟩ ⟨1704067319999, 0⟩]).count 1 ≤ 1 :=
  ⟨by decide,
    dispatched_at_most_once_per_minute Store.init ⟨[], rfl⟩ _ 28401121
      (by
        intro now keyNow h
        simp only [List.mem_cons, Op.scan.injEq, List.mem_singleton, List.mem_nil_iff,
          reduceCtorEq, false_or, or_false] at h
        rcases h with ⟨rfl, rfl⟩ | ⟨rfl, rfl⟩ | ⟨rfl, rfl⟩ <;> decide)
      1⟩

/-- C1 (at most once per minute), at a run whose scans are both invoked in the
calendar minute 2024-01-01T00:00Z: the hourly job 1 for minute 0 is dispatched by
the scan at 00:00:30.000Z, which writes the key "2024-01-01T00:00", and again by
the scan at 00:00:59.999Z, whose key, read at 00:01:00.000Z inside
`getCurrentMinuteKey`, is "2024-01-01T00:01" and so differs from the job's
`lastRun`; job 1 is handed to `runJobInWorker` twice in that minute. -/
theorem straddling_scan_dispatches_twice :
    (JSDate.mk 1704067230000 0).minuteIndex = 28401120 ∧
    (JSDate.mk 1704067259999 0).minuteIndex = 28401120 ∧
    (JSDate.mk 1704067230000 0).getMinutes = 0 ∧
    (JSDate.mk 1704067259999 0).getMinutes = 0 ∧
    getCurrentMinuteKey (JSDate.mk 1704067230000 0) = "2024-01-01T00:00" ∧
    getCurrentMinuteKey (JSDate.mk 1704067260000 0) = "2024-01-01T00:01" ∧
    dispatchLog Store.init
        [.create ⟨.str "hourly", .num 0, .undefined, .undefined⟩,
         .scan ⟨1704067230000, 0⟩ ⟨1704067230000, 0⟩,
         .scan ⟨1704067259999, 0⟩ ⟨1704067260000, 0⟩] = [1, 1] ∧
    (dispatchLog Store.init
        [.create ⟨.str "hourly", .num 0, .undefined, .undefined⟩,
         .scan ⟨1704067230000, 0⟩ ⟨1704067230000, 0⟩,
         .scan ⟨1704067259999, 0⟩ ⟨1704067260000, 0⟩]).count 1 = 2 := by
  decide

/-! ## C2 -/

/-- C2 (matcher rule): the ids that a scan hands to `runJobInWorker` are, in store
order, exactly those of the jobs whose `lastRun` differs from the scan's minute key
and whose recurrence rule (hourly: minute; daily: hour and minute; weekly: day of
week, hour and minute) matches `now`; a job whose `lastRun` equals the key is
skipped by the callback and left untouched. -/
theorem scan_dispatches_iff_rule_matches (s : Store) (now keyNow : JSDate) :
    (checkAllJobsAndRun s now keyNow).2 =
        (s.jobs.filter (fun j =>
          decide (j.lastRun ≠ some (getCurrentMinuteKey keyNow) ∧ RuleMatches now j))).map
          Job.id ∧
    (∀ j : Job, j.lastRun ≠ some (getCurrentMinuteKey keyNow) →
      ((visitJob now.getMinutes now.getHours now.getDay (getCurrentMinuteKey keyNow) j).2 =
          [j.id] ↔ RuleMatches now j) ∧
      (¬ RuleMatches now j →
        (visitJob now.getMinutes now.getHours now.getDay (getCurrentMinuteKey keyNow) j).2 =
          [])) ∧
    (∀ j : Job, j.lastRun = some (getCurrentMinuteKey keyNow) →
      visitJob now.getMinutes now.getHours now.getDay (getCurrentMinuteKey keyNow) j =
        (j, [])) := by
  refine ⟨?_, ?_, ?_⟩
  · rw [scan_dispatched]
    congr 1
    apply List.filter_congr
    intro j _
    rw [Bool.eq_iff_iff, dispatches_iff]
    simp
  · intro j hj
    rw [visitJob_snd]
    have h := dispatches_iff now (getCurrentMinuteKey keyNow) j
    by_cases hd : dispatches now.getMinutes now.getHours now.getDay
        (getCurrentMinuteKey keyNow) j = true
    · have hr := (h.mp hd).2
      simp [hd, hr]
    · have hr : ¬ RuleMatches now j := fun hr => hd (h.mpr ⟨hj, hr⟩)
      simp [hd, hr]
  · intro j hj
    simp [visitJob, hj]

/-! ## C3 -/

/-- C3 (the minute key is the key of `now`), at a scan whose two clock reads
straddle a minute boundary: `now` is 2024-01-01T00:00:59.999Z, so the rules are
evaluated for minute 0 and the hourly job for minute 0 is dispatched, but the key
that is compared with and written to `lastRun` is "2024-01-01T00:01", the key of
the later read made inside `getCurrentMinuteKey`, not the key of `now`. -/
theorem scan_minute_key_not_of_now :
    (JSDate.mk 1704067259999 0).getMinutes = 0 ∧
    getCurrentMinuteKey (JSDate.mk 1704067259999 0) = "2024-01-01T00:00" ∧
    checkAllJobsAndRun ⟨[⟨1, .str "hourly", .num 0, .undefined, .undefined, none⟩], 2⟩
        (JSDate.mk 1704067259999 0) (JSDate.mk 1704067260000 0) =
      (⟨[⟨1, .str "hourly", .num 0, .undefined, .undefined, some "2024-01-01T00:01"⟩], 2⟩,
        [1]) := by
  decide

/-! ## C4 -/

/-- C4 (create accepts exactly the valid specifications): `POST /jobs` answers 201
and stores the job if and only if the body is a valid specification (type one of
the three variants, minute a number in 0..59, hour a number in 0..23 for daily and
weekly, dayOfWeek a number in 0..6 for weekly), and answers 400 with an error
message otherwise; for an hourly body the whole outcome is independent of hour and
dayOfWeek, and for a daily body of dayOfWeek. -/
theorem create_accepts_exactly_valid (s : Store) (req : ReqBody) :
    ((postJobs s req).2.status = 201 ↔ ValidSpec req) ∧
    (ValidSpec req →
      ∃ j, (postJobs s req).2 = ⟨201, .job j⟩ ∧ (postJobs s req).1.jobs = s.jobs ++ [j]) ∧
    (¬ ValidSpec req →
      (postJobs s req).2.status = 400 ∧ ∃ msg, (postJobs s req).2.body = .error msg) ∧
    (req.type = .str "hourly" →
      ∀ h d, postJobs s { req with hour := h, dayOfWeek := d } = postJobs s req) ∧
    (req.type = .str "daily" →
      ∀ d, postJobs s { req with dayOfWeek := d } = postJobs s req) := by
  refine ⟨?_, ?_, ?_, ?_, ?_⟩
  · constructor
    · intro h
      by_contra hv
      have := (postJobs_of_invalid s req hv).2.1
      omega
    · intro hv
      rw [postJobs_of_valid s req hv]
  · intro hv
    exact ⟨newJobOf s req, by rw [postJobs_of_valid s req hv], by rw [postJobs_of_valid s req hv]⟩
  · intro hv
    exact (postJobs_of_invalid s req hv).2
  · intro ht h d
    simp [postJobs, newJobOf, ht, JVal.truthy, includesType]
  · intro ht d
    simp [postJobs, newJobOf, ht, JVal.truthy, includesType]

/-! ## C5 -/

/-- C5 as stated fails: the body `{type: "hourly", minute: 30.5}` passes the POST
handler's checks, so a reachable store holds a job whose minute is not an
integer. -/
theorem type_consistency_integer_counterexample :
    Reachable ⟨[⟨1, .str "hourly", .num (61 / 2), .undefined, .undefined, none⟩], 2⟩ ∧
    ¬ TypeConsistentInteger ⟨1, .str "hourly", .num (61 / 2), .undefined, .undefined, none⟩ := by
  constructor
  · have hv : ValidSpec ⟨.str "hourly", .num (61 / 2), .undefined, .undefined⟩ := by
      refine ⟨Or.inl rfl, ?_, ?_, ?_⟩
      · show (0 : ℚ) ≤ 61 / 2 ∧ (61 / 2 : ℚ) ≤ 59
        norm_num
      · intro h; simp at h
      · intro h; simp at h
    refine ⟨[.create ⟨.str "hourly", .num (61 / 2), .undefined, .undefined⟩], ?_⟩
    simp only [runOps, step]
    rw [postJobs_of_valid _ _ hv]
    simp [newJobOf, Store.init]
  · rintro ⟨_, ⟨n, hn, _, _⟩, _⟩
    have h1 : ((61 : ℚ) / 2) = (n : ℚ) := JVal.num.inj hn
    have h2 : (61 : ℚ) = 2 * (n : ℚ) := by linarith
    have h3 : (61 : ℕ) = 2 * n := by exact_mod_cast h2
    omega

/-- C5, amended (type-consistency invariant): in every reachable store every job
has type hourly, daily or weekly, minute a number in 0..59, hour a number in 0..23
for daily and weekly and absent for hourly, dayOfWeek a number in 0..6 for weekly
and absent otherwise. -/
theorem type_consistency_invariant (s : Store) (hs : Reachable s) (j : Job)
    (hj : j ∈ s.jobs) : TypeConsistent j := by
  obtain ⟨ops, rfl⟩ := hs
  exact typeConsistent_runOps ops Store.init (by simp [Store.init]) j hj

/-- C5, amended, on the store reached by creating a weekly job. -/
theorem type_consistency_invariant_witness :
    Reachable ⟨[⟨1, .str "weekly", .num 15, .num 9, .num 3, none⟩], 2⟩ ∧
    TypeConsistent ⟨1, .str "weekly", .num 15, .num 9, .num 3, none⟩ :=
  have hr : Reachable ⟨[⟨1, .str "weekly", .num 15, .num 9, .num 3, none⟩], 2⟩ :=
    ⟨[.create ⟨.str "weekly", .num 15, .num 9, .num 3⟩], by decide⟩
  ⟨hr, type_consistency_invariant _ hr _ (List.mem_singleton.mpr rfl)⟩

/-! ## C6 -/

/-- C6 (a rejected create is atomic): when the body is not a valid specification,
`POST /jobs` answers 400 and leaves the job list and `nextJobId` as they were, so
any following request is answered as if the rejected one had not been made. -/
theorem rejected_create_is_atomic (s : Store) (req : ReqBody) (h : ¬ ValidSpec req) :
    (postJobs s req).2.status = 400 ∧
    (postJobs s req).1.jobs = s.jobs ∧
    (postJobs s req).1.nextJobId = s.nextJobId ∧
    ∀ req2, postJobs (postJobs s req).1 req2 = postJobs s req2 := by
  obtain ⟨h1, h2, _⟩ := postJobs_of_invalid s req h
  exact ⟨h2, by rw [h1], by rw [h1], fun req2 => by rw [h1]⟩

/-- C6 at the specification's example: type "hourly" with minute 75, sent to a
store that holds one job. -/
theorem rejected_create_is_atomic_witness :
    ¬ ValidSpec ⟨.str "hourly", .num 75, .undefined, .undefined⟩ ∧
    (postJobs ⟨[⟨1, .str "daily", .num 0, .num 14, .undefined, none⟩], 2⟩
        ⟨.str "hourly", .num 75, .undefined, .undefined⟩).2.status = 400 ∧
    (postJobs ⟨[⟨1, .str "daily", .num 0, .num 14, .undefined, none⟩], 2⟩
        ⟨.str "hourly", .num 75, .undefined, .undefined⟩).1.nextJobId = 2 :=
  have hv : ¬ ValidSpec ⟨.str "hourly", .num 75, .undefined, .undefined⟩ := by decide
  ⟨hv, (rejected_create_is_atomic _ _ hv).1, (rejected_create_is_atomic _ _ hv).2.2.1⟩

/-! ## C7 -/

/-- C7 (postcondition of a successful create): for a valid body, `POST /jobs`
answers 201 with a record whose id is `nextJobId` before the call, whose type and
minute are the request's, whose hour is the request's for daily and weekly and
absent for hourly, whose dayOfWeek is the request's for weekly and absent
otherwise, and whose lastRun is null; the record is appended to the store, whose
other jobs are unchanged, `nextJobId` grows by one, the create hands nothing to
`runJobInWorker`, and a later scan at an instant that matches the new job's rule
dispatches it. -/
theorem create_postcondition (s : Store) (req : ReqBody) (h : ValidSpec req) :
    ∃ j : Job,
      (postJobs s req).2 = ⟨201, .job j⟩ ∧
      j.id = s.nextJobId ∧ j.type = req.type ∧ j.minute = req.minute ∧
      (req.type = .str "hourly" → j.hour = .undefined) ∧
      (req.type = .str "daily" ∨ req.type = .str "weekly" → j.hour = req.hour) ∧
      (req.type = .str "weekly" → j.dayOfWeek = req.dayOfWeek) ∧
      (req.type ≠ .str "weekly" → j.dayOfWeek = .undefined) ∧
      j.lastRun = none ∧
      (postJobs s req).1.jobs = s.jobs ++ [j] ∧
      (postJobs s req).1.nextJobId = s.nextJobId + 1 ∧
      (step s (.create req)).dispatched = [] ∧
      ∀ now keyNow, RuleMatches now j →
        j.id ∈ (checkAllJobsAndRun (postJobs s req).1 now keyNow).2 := by
  refine ⟨newJobOf s req, ?_, rfl, rfl, rfl, ?_, ?_, ?_, ?_, rfl, ?_, ?_, rfl, ?_⟩
  · rw [postJobs_of_valid s req h]
  · intro ht; simp [newJobOf, ht]
  · intro ht; simp [newJobOf, ht]
  · intro ht; simp [newJobOf, ht]
  · intro ht; simp [newJobOf, ht]
  · rw [postJobs_of_valid s req h]
  · rw [postJobs_of_valid s req h]
  · intro now keyNow hr
    rw [scan_dispatched, postJobs_of_valid s req h]
    apply List.mem_map.mpr
    refine ⟨newJobOf s req, ?_, rfl⟩
    rw [List.mem_filter]
    refine ⟨by simp, ?_⟩
    rw [dispatches_iff]
    exact ⟨by simp [newJobOf], hr⟩

/-- C7 at the specification's example: type "hourly" with minute 30, sent to the
initial store, gets id 1 and a null lastRun. -/
theorem create_postcondition_witness :
    ValidSpec ⟨.str "hourly", .num 30, .undefined, .undefined⟩ ∧
    ∃ j : Job,
      (postJobs Store.init ⟨.str "hourly", .num 30, .undefined, .undefined⟩).2 =
        ⟨201, .job j⟩ ∧ j.id = 1 ∧ j.lastRun = none :=
  have hv : ValidSpec ⟨.str "hourly", .num 30, .undefined, .undefined⟩ := by decide
  ⟨hv, (create_postcondition Store.init _ hv).elim
    (fun j hj => ⟨j, hj.1, hj.2.1, hj.2.2.2.2.2.2.2.2.1⟩)⟩

/-! ## C8 -/

/-- C8 (ids are unique and never reused): over any sequence of create, delete and
scan events from the initial state, the ids returned by the successful creates are
strictly increasing in creation order, hence pairwise distinct; in the resulting
store the ids are pairwise distinct, each of them is one of the returned ids, every
returned id is below `nextJobId`, and any further event keeps the ids of the stored
jobs (the ids afterwards are, in order, ids from before, and at most the fresh id
`nextJobId` at the end). -/
theorem ids_unique_never_reused (ops : List Op) :
    List.Pairwise (· < ·) (createdIds Store.init ops) ∧
    (createdIds Store.init ops).Nodup ∧
    ((runOps Store.init ops).jobs.map Job.id).Nodup ∧
    (∀ j ∈ (runOps Store.init ops).jobs, j.id ∈ createdIds Store.init ops) ∧
    (∀ id ∈ createdIds Store.init ops, id < (runOps Store.init ops).nextJobId) ∧
    (∀ op, List.Sublist ((step (runOps Store.init ops) op).store.jobs.map Job.id)
      ((runOps Store.init ops).jobs.map Job.id ++ [(runOps Store.init ops).nextJobId])) := by
  obtain ⟨h1, h2, _⟩ := createdIds_bounds ops Store.init
  refine ⟨h1, ?_, (idsFresh_runOps ops _ idsFresh_init).1, ?_, fun id hid => (h2 id hid).2,
    fun op => step_ids_sublist _ op⟩
  · exact h1.imp (fun h => Nat.ne_of_lt h)
  · intro j hj
    rcases stored_ids_created ops Store.init j hj with h | h
    · simp [Store.init] at h
    · exact h

/-! ## C9 -/

/-- C9 (delete of an existing id): in a reachable store, `DELETE /jobs/{id}` for
the id of a stored job `r` answers 200 with `{deleted: r}`; afterwards the store
holds exactly the other jobs, unchanged and in the same order, none of them with
that id, `nextJobId` is unchanged, and `GET /jobs` lists exactly those jobs. -/
theorem delete_existing_job (s : Store) (hs : Reachable s) (r : Job) (hr : r ∈ s.jobs) :
    (deleteJob s (some (r.id : Int))).2 = ⟨200, .deleted r⟩ ∧
    (deleteJob s (some (r.id : Int))).1.jobs = s.jobs.filter (fun j => decide (j.id ≠ r.id)) ∧
    (∀ j ∈ (deleteJob s (some (r.id : Int))).1.jobs, j.id ≠ r.id) ∧
    (∀ j ∈ s.jobs, j.id ≠ r.id → j ∈ (deleteJob s (some (r.id : Int))).1.jobs) ∧
    (deleteJob s (some (r.id : Int))).1.nextJobId = s.nextJobId ∧
    getJobs (deleteJob s (some (r.id : Int))).1 =
      ⟨200, .jobs (s.jobs.filter (fun j => decide (j.id ≠ r.id)))⟩ := by
  rw [deleteJob_of_mem s (idsFresh_of_reachable s hs) r hr]
  refine ⟨rfl, rfl, ?_, ?_, rfl, rfl⟩
  · intro j hj
    simpa using (List.mem_filter.mp hj).2
  · intro j hj hne
    exact List.mem_filter.mpr ⟨hj, by simpa using hne⟩

/-- C9 on the store reached by three creates: deleting id 2 returns the daily job
and leaves jobs 1 and 3. -/
theorem delete_existing_job_witness :
    Reachable ⟨[⟨1, .str "hourly", .num 30, .undefined, .undefined, none⟩,
        ⟨2, .str "daily", .num 0, .num 14, .undefined, none⟩,
        ⟨3, .str "weekly", .num 15, .num 9, .num 3, none⟩], 4⟩ ∧
    (deleteJob ⟨[⟨1, .str "hourly", .num 30, .undefined, .undefined, none⟩,
        ⟨2, .str "daily", .num 0, .num 14, .undefined, none⟩,
        ⟨3, .str "weekly", .num 15, .num 9, .num 3, none⟩], 4⟩ (some 2)).2 =
      ⟨200, .deleted ⟨2, .str "daily", .num 0, .num 14, .undefined, none⟩⟩ :=
  have hr : Reachable ⟨[⟨1, .str "hourly", .num 30, .undefined, .undefined, none⟩,
        ⟨2, .str "daily", .num 0, .num 14, .undefined, none⟩,
        ⟨3, .str "weekly", .num 15, .num 9, .num 3, none⟩], 4⟩ :=
    ⟨[.create ⟨.str "hourly", .num 30, .undefined, .undefined⟩,
      .create ⟨.str "daily", .num 0, .num 14, .object⟩,
      .create ⟨.str "weekly", .num 15, .num 9, .num 3⟩], by decide⟩
  ⟨hr, (delete_existing_job _ hr ⟨2, .str "daily", .num 0, .num 14, .undefined, none⟩
    (by simp)).1⟩

/-! ## C10 -/

/-- C10 (a deleted job is never dispatched again): in a reachable store, after a
`DELETE /jobs/{id}` that answers 200, no sequence of create, delete and scan events
hands that id to `runJobInWorker`. -/
theorem deleted_job_never_dispatched (s : Store) (hs : Reachable s) (id : Nat)
    (hdel : (deleteJob s (some (id : Int))).2.status = 200) (ops : List Op) :
    id ∉ dispatchLog (deleteJob s (some (id : Int))).1 ops := by
  have hf := idsFresh_of_reachable s hs
  rcases deleteJob_cases s (some (id : Int)) with ⟨_, h⟩ | ⟨r, hr, he, _⟩
  · rw [h] at hdel
    simp at hdel
  · have hid : id = r.id := by
      have := Option.some.inj he
      exact_mod_cast this
    subst hid
    rw [deleteJob_of_mem s hf r hr]
    apply absent_never_dispatched
    · intro j hj
      simpa using (List.mem_filter.mp hj).2
    · exact hf.2 r hr

/-- C10 on a run: the hourly job 1 for minute 1 is deleted; a scan at
2024-01-01T00:01Z, which matches its rule, then dispatches only the job created
after the delete. -/
theorem deleted_job_never_dispatched_witness :
    Reachable ⟨[⟨1, .str "hourly", .num 1, .undefined, .undefined, none⟩], 2⟩ ∧
    (deleteJob ⟨[⟨1, .str "hourly", .num 1, .undefined, .undefined, none⟩], 2⟩
      (some 1)).2.status = 200 ∧
    dispatchLog
      (deleteJob ⟨[⟨1, .str "hourly", .num 1, .undefined, .undefined, none⟩], 2⟩ (some 1)).1
      [.create ⟨.str "hourly", .num 1, .undefined, .undefined⟩,
       .scan ⟨1704067260000, 0⟩ ⟨1704067260000, 0⟩] = [2] ∧
    1 ∉ dispatchLog
      (deleteJob ⟨[⟨1, .str "hourly", .num 1, .undefined, .undefined, none⟩], 2⟩ (some 1)).1
      [.create ⟨.str "hourly", .num 1, .undefined, .undefined⟩,
       .scan ⟨1704067260000, 0⟩ ⟨1704067260000, 0⟩] :=
  have hr : Reachable ⟨[⟨1, .str "hourly", .num 1, .undefined, .undefined, none⟩], 2⟩ :=
    ⟨[.create ⟨.str "hourly", .num 1, .undefined, .undefined⟩], by decide⟩
  ⟨hr, by decide, by decide,
    deleted_job_never_dispatched _ hr 1 (by decide) _⟩

/-! ## C11 -/

/-- C11 (delete of an unknown id): when no stored job carries the id,
`DELETE /jobs/{id}` answers 404 with `{error: "Job not found"}` and leaves the job
list and `nextJobId` unchanged. -/
theorem delete_unknown_id (s : Store) (id : Option Int)
    (h : ∀ j ∈ s.jobs, id ≠ some (j.id : Int)) :
    (deleteJob s id).2 = ⟨404, .error "Job not found"⟩ ∧
    (deleteJob s id).1.jobs = s.jobs ∧
    (deleteJob s id).1.nextJobId = s.nextJobId := by
  rcases deleteJob_cases s id with ⟨_, hd⟩ | ⟨r, hr, he, _⟩
  · rw [hd]; exact ⟨rfl, rfl, rfl⟩
  · exact absurd he (h r hr)

/-- C11 at the specification's example: `DELETE /jobs/999` on a store holding
jobs 1 and 3. -/
theorem delete_unknown_id_witness :
    (deleteJob ⟨[⟨1, .str "hourly", .num 30, .undefined, .undefined, none⟩,
        ⟨3, .str "weekly", .num 15, .num 9, .num 3, none⟩], 4⟩ (some 999)).2 =
      ⟨404, .error "Job not found"⟩ ∧
    (deleteJob ⟨[⟨1, .str "hourly", .num 30, .undefined, .undefined, none⟩,
        ⟨3, .str "weekly", .num 15, .num 9, .num 3, none⟩], 4⟩ (some 999)).1.jobs =
      [⟨1, .str "hourly", .num 30, .undefined, .undefined, none⟩,
        ⟨3, .str "weekly", .num 15, .num 9, .num 3, none⟩] :=
  have h := delete_unknown_id
    ⟨[⟨1, .str "hourly", .num 30, .undefined, .undefined, none⟩,
      ⟨3, .str "weekly", .num 15, .num 9, .num 3, none⟩], 4⟩ (some 999)
    (by intro j hj; simp at hj; rcases hj with rfl | rfl <;> decide)
  ⟨h.1, h.2.1⟩

/-! ## Lemmas on the histories of a run -/

theorem idsSorted_step (s : Store) (op : Op)
    (h1 : List.Pairwise (· < ·) (s.jobs.map Job.id)) (h2 : ∀ j ∈ s.jobs, j.id < s.nextJobId) :
    List.Pairwise (· < ·) ((step s op).store.jobs.map Job.id) := by
  apply List.Pairwise.sublist (step_ids_sublist s op)
  rw [List.pairwise_append]
  refine ⟨h1, List.pairwise_singleton _ _, ?_⟩
  intro a ha b hb
  obtain ⟨j, hj, rfl⟩ := List.mem_map.mp ha
  rw [List.mem_singleton] at hb
  rw [hb]
  exact h2 j hj

theorem idsSorted_runOps (ops : List Op) :
    ∀ s : Store, IdsFresh s → List.Pairwise (· < ·) (s.jobs.map Job.id) →
      List.Pairwise (· < ·) ((runOps s ops).jobs.map Job.id) := by
  induction ops with
  | nil => intro s _ h; exact h
  | cons op ops ih =>
    intro s hf h
    exact ih _ (idsFresh_step s op hf) (idsSorted_step s op h hf.2)

theorem idsSorted_of_reachable (s : Store) (h : Reachable s) :
    List.Pairwise (· < ·) (s.jobs.map Job.id) := by
  obtain ⟨ops, rfl⟩ := h
  exact idsSorted_runOps ops _ idsFresh_init (by simp [Store.init])

theorem createdJobs_create_valid (s : Store) (req : ReqBody) (ops : List Op)
    (hv : ValidSpec req) :
    createdJobs s (.create req :: ops) = newJobOf s req :: createdJobs (postJobs s req).1 ops := by
  simp only [createdJobs, step, postJobs_of_valid s req hv]
  rfl

theorem createdJobs_create_invalid (s : Store) (req : ReqBody) (ops : List Op)
    (hv : ¬ ValidSpec req) :
    createdJobs s (.create req :: ops) = createdJobs s ops := by
  obtain ⟨msg, hm⟩ := postJobs_invalid_eq s req hv
  simp only [createdJobs, step, hm]
  rfl

theorem createdJobs_delete (s : Store) (id : Option Int) (ops : List Op) :
    createdJobs s (.delete id :: ops) = createdJobs (deleteJob s id).1 ops := by
  rcases deleteJob_cases s id with ⟨_, h⟩ | ⟨r, _, _, h⟩
  · simp only [createdJobs, step, h]; rfl
  · simp only [createdJobs, step, h]; rfl

theorem createdJobs_scan (s : Store) (now keyNow : JSDate) (ops : List Op) :
    createdJobs s (.scan now keyNow :: ops) =
      createdJobs (checkAllJobsAndRun s now keyNow).1 ops := by
  simp only [createdJobs, step]; rfl

theorem createdJobs_ids (ops : List Op) :
    ∀ s : Store, (createdJobs s ops).map Job.id = createdIds s ops := by
  induction ops with
  | nil => intro s; rfl
  | cons op ops ih =>
    intro s
    cases op with
    | create req =>
      by_cases hv : ValidSpec req
      · rw [createdJobs_create_valid s req ops hv, createdIds_create_valid s req ops hv,
          List.map_cons, ih]
        rfl
      · rw [createdJobs_create_invalid s req ops hv, createdIds_create_invalid s req ops hv, ih]
    | delete id => rw [createdJobs_delete, createdIds_delete, ih]
    | scan now keyNow => rw [createdJobs_scan, createdIds_scan, ih]

theorem deletedIds_create (s : Store) (req : ReqBody) (ops : List Op) :
    deletedIds s (.create req :: ops) = deletedIds (postJobs s req).1 ops := by
  by_cases hv : ValidSpec req
  · simp only [deletedIds, step, postJobs_of_valid s req hv]; rfl
  · obtain ⟨msg, hm⟩ := postJobs_invalid_eq s req hv
    simp only [deletedIds, step, hm]; rfl

theorem deletedIds_scan (s : Store) (now keyNow : JSDate) (ops : List Op) :
    deletedIds s (.scan now keyNow :: ops) =
      deletedIds (checkAllJobsAndRun s now keyNow).1 ops := by
  simp only [deletedIds, step]; rfl

theorem scan_clearLastRun (s : Store) (now keyNow : JSDate) :
    (checkAllJobsAndRun s now keyNow).1.jobs.map Job.clearLastRun =
      s.jobs.map Job.clearLastRun := by
  rw [scan_jobs, List.map_map]
  apply List.map_congr_left
  intro j _
  simp only [Function.comp]
  split <;> rfl

theorem jobs_eq_created_not_deleted (ops : List Op) :
    ∀ s : Store, IdsFresh s →
      (runOps s ops).jobs.map Job.clearLastRun =
        (s.jobs.map Job.clearLastRun ++ createdJobs s ops).filter
          (fun j => decide (j.id ∉ deletedIds s ops)) := by
  induction ops with
  | nil =>
    intro s _
    simp [runOps, createdJobs, deletedIds]
  | cons op ops ih =>
    intro s hf
    have ih2 := ih (step s op).store (idsFresh_step s op hf)
    cases op with
    | create req =>
      simp only [runOps]
      rw [ih2, deletedIds_create]
      by_cases hv : ValidSpec req
      · rw [createdJobs_create_valid s req ops hv]
        simp only [step, postJobs_of_valid s req hv, List.map_append, List.map_cons,
          List.map_nil, List.append_assoc, List.singleton_append]
        rfl
      · obtain ⟨msg, hm⟩ := postJobs_invalid_eq s req hv
        rw [createdJobs_create_invalid s req ops hv]
        simp only [step, hm]
    | scan now keyNow =>
      simp only [runOps]
      rw [ih2, deletedIds_scan, createdJobs_scan]
      simp only [step, scan_clearLastRun]
    | delete id =>
      simp only [runOps]
      rw [ih2, createdJobs_delete]
      rcases deleteJob_cases s id with ⟨_, h⟩ | ⟨r, hr, he, _⟩
      · have hd : deletedIds s (.delete id :: ops) = deletedIds s ops := by
          simp only [deletedIds, step, h]; rfl
        rw [hd]
        simp only [step, h]
      · subst he
        have h := deleteJob_of_mem s hf r hr
        have hd : deletedIds s (.delete (some (r.id : Int)) :: ops) =
            r.id :: deletedIds { s with jobs := s.jobs.filter (fun j => decide (j.id ≠ r.id)) }
              ops := by
          simp only [deletedIds, step, h]; rfl
        rw [hd]
        simp only [step, h]
        generalize deletedIds { s with jobs := s.jobs.filter (fun j => decide (j.id ≠ r.id)) }
          ops = D
        generalize hC : createdJobs
          { s with jobs := s.jobs.filter (fun j => decide (j.id ≠ r.id)) } ops = C
        have hCid : ∀ j ∈ C, j.id ≠ r.id := by
          intro j hj
          have h1 : j.id ∈ createdIds
              { s with jobs := s.jobs.filter (fun j => decide (j.id ≠ r.id)) } ops := by
            rw [← createdJobs_ids, hC]
            exact List.mem_map.mpr ⟨j, hj, rfl⟩
          have h2 := ((createdIds_bounds ops _).2.1 _ h1).1
          have h3 := hf.2 r hr
          simp only at h2
          omega
        have e1 : (s.jobs.filter (fun j => decide (j.id ≠ r.id))).map Job.clearLastRun =
            (s.jobs.map Job.clearLastRun).filter (fun j => decide (j.id ≠ r.id)) := by
          rw [List.filter_map]
          rfl
        have e2 : C = C.filter (fun j => decide (j.id ≠ r.id)) := by
          rw [List.filter_eq_self.mpr]
          intro j hj
          simpa using hCid j hj
        rw [e1]
        conv_lhs => rw [e2]
        rw [← List.filter_append, List.filter_filter]
        apply List.filter_congr
        intro j _
        simp only [List.mem_cons, not_or, Bool.decide_and, Bool.and_comm]

/-! ## C12 -/

/-- C12 (list returns the current jobs in insertion order): after any sequence of
create, delete and scan events from the initial state, `GET /jobs` answers 200 with
a list that holds, each once and in creation order, exactly the records returned by
the successful creates whose id no successful delete has returned (up to the
`lastRun` that scans have written since), and that order is ascending in the
id. -/
theorem list_returns_current_jobs (ops : List Op) :
    ∃ l : List Job,
      getJobs (runOps Store.init ops) = ⟨200, .jobs l⟩ ∧
      l.map Job.clearLastRun =
        (createdJobs Store.init ops).filter
          (fun j => decide (j.id ∉ deletedIds Store.init ops)) ∧
      l.Nodup ∧
      List.Pairwise (· < ·) (l.map Job.id) := by
  refine ⟨(runOps Store.init ops).jobs, rfl, ?_, ?_, ?_⟩
  · rw [jobs_eq_created_not_deleted ops Store.init idsFresh_init]
    simp [Store.init]
  · exact List.Nodup.of_map _ (idsFresh_runOps ops _ idsFresh_init).1
  · exact idsSorted_runOps ops _ idsFresh_init (by simp [Store.init])

/-! ## C13 -/

/-- C13 (frame of a scan): `checkAllJobsAndRun` leaves `nextJobId` and the number
and order of the jobs unchanged; position by position, the job after the scan has
the id, type, minute, hour and dayOfWeek of the job before, its `lastRun` is the
scan's minute key if the callback dispatched it, and the job is unchanged if it did
not; a job whose id is not among the dispatched ids is still in the store as it
was. -/
theorem scan_frame (s : Store) (now keyNow : JSDate) :
    (checkAllJobsAndRun s now keyNow).1.nextJobId = s.nextJobId ∧
    (checkAllJobsAndRun s now keyNow).1.jobs.length = s.jobs.length ∧
    List.Forall₂
      (fun j j2 : Job =>
        j2.id = j.id ∧ j2.type = j.type ∧ j2.minute = j.minute ∧ j2.hour = j.hour ∧
        j2.dayOfWeek = j.dayOfWeek ∧
        ((visitJob now.getMinutes now.getHours now.getDay (getCurrentMinuteKey keyNow) j).2 =
            [j.id] → j2.lastRun = some (getCurrentMinuteKey keyNow)) ∧
        ((visitJob now.getMinutes now.getHours now.getDay (getCurrentMinuteKey keyNow) j).2 =
            [] → j2 = j))
      s.jobs (checkAllJobsAndRun s now keyNow).1.jobs ∧
    (∀ j ∈ s.jobs, j.id ∉ (checkAllJobsAndRun s now keyNow).2 →
      j ∈ (checkAllJobsAndRun s now keyNow).1.jobs) := by
  refine ⟨rfl, by rw [scan_jobs, List.length_map], ?_, ?_⟩
  · rw [scan_jobs, List.forall₂_map_right_iff]
    apply List.forall₂_same.mpr
    intro j _
    rw [visitJob_snd]
    by_cases hd : dispatches now.getMinutes now.getHours now.getDay
        (getCurrentMinuteKey keyNow) j = true
    · simp [hd]
    · simp [hd]
  · intro j hj hn
    rw [scan_jobs]
    apply List.mem_map.mpr
    refine ⟨j, hj, ?_⟩
    by_cases hd : dispatches now.getMinutes now.getHours now.getDay
        (getCurrentMinuteKey keyNow) j = true
    · exfalso
      apply hn
      rw [scan_dispatched]
      exact List.mem_map.mpr ⟨j, List.mem_filter.mpr ⟨hj, hd⟩, rfl⟩
    · simp [hd]

/-! ## Lemmas on the most recent dispatch -/

theorem lastDispatchKey_cons_some (s : Store) (op : Op) (ops : List Op) (id : Nat) (k : String)
    (h : lastDispatchKey (step s op).store ops id = some k) :
    lastDispatchKey s (op :: ops) id = some k := by
  simp only [lastDispatchKey, h]

theorem lastDispatchKey_cons_create (s : Store) (req : ReqBody) (ops : List Op) (id : Nat)
    (h : lastDispatchKey (step s (.create req)).store ops id = none) :
    lastDispatchKey s (.create req :: ops) id = none := by
  simp only [lastDispatchKey, h]

theorem lastDispatchKey_cons_delete (s : Store) (id2 : Option Int) (ops : List Op) (id : Nat)
    (h : lastDispatchKey (step s (.delete id2)).store ops id = none) :
    lastDispatchKey s (.delete id2 :: ops) id = none := by
  simp only [lastDispatchKey, h]

theorem lastDispatchKey_cons_scan (s : Store) (now keyNow : JSDate) (ops : List Op) (id : Nat)
    (h : lastDispatchKey (step s (.scan now keyNow)).store ops id = none) :
    lastDispatchKey s (.scan now keyNow :: ops) id =
      if id ∈ (checkAllJobsAndRun s now keyNow).2 then some (getCurrentMinuteKey keyNow)
      else none := by
  have h2 : lastDispatchKey (checkAllJobsAndRun s now keyNow).1 ops id = none := h
  simp only [lastDispatchKey, step, h2]

theorem lastDispatchKey_eq_none_iff (ops : List Op) :
    ∀ (s : Store) (id : Nat), lastDispatchKey s ops id = none ↔ id ∉ dispatchLog s ops := by
  induction ops with
  | nil => intro s id; simp [lastDispatchKey, dispatchLog]
  | cons op ops ih =>
    intro s id
    simp only [dispatchLog, List.mem_append, not_or]
    cases hL : lastDispatchKey (step s op).store ops id with
    | some k =>
      rw [lastDispatchKey_cons_some s op ops id k hL]
      have := (ih (step s op).store id).not.mp (by rw [hL]; simp)
      simp only [reduceCtorEq, false_iff, not_and]
      intro _
      exact this
    | none =>
      have h2 := (ih (step s op).store id).mp hL
      cases op with
      | create req =>
        rw [lastDispatchKey_cons_create s req ops id hL]
        simp only [true_iff]
        exact ⟨by simp [step], h2⟩
      | delete id2 =>
        rw [lastDispatchKey_cons_delete s id2 ops id hL]
        simp only [true_iff]
        exact ⟨by simp [step], h2⟩
      | scan now keyNow =>
        rw [lastDispatchKey_cons_scan s now keyNow ops id hL]
        by_cases hm : id ∈ (checkAllJobsAndRun s now keyNow).2
        · simp [hm, step]
        · simp only [hm, if_false, true_iff]
          exact ⟨hm, h2⟩

theorem lastRun_eq_lastDispatchKey (ops : List Op) :
    ∀ s : Store, IdsFresh s → ∀ j ∈ (runOps s ops).jobs,
      (∀ k, lastDispatchKey s ops j.id = some k → j.lastRun = some k) ∧
      (lastDispatchKey s ops j.id = none →
        (∃ j0 ∈ s.jobs, j0.id = j.id ∧ j.lastRun = j0.lastRun) ∨
        (s.nextJobId ≤ j.id ∧ j.lastRun = none)) := by
  induction ops with
  | nil =>
    intro s _ j hj
    exact ⟨by simp [lastDispatchKey], fun _ => Or.inl ⟨j, hj, rfl, rfl⟩⟩
  | cons op ops ih =>
    intro s hf j hj
    obtain ⟨ihA, ihB⟩ := ih (step s op).store (idsFresh_step s op hf) j hj
    cases hL : lastDispatchKey (step s op).store ops j.id with
    | some k =>
      rw [lastDispatchKey_cons_some s op ops j.id k hL]
      refine ⟨?_, by simp⟩
      intro k2 hk2
      rw [← Option.some.inj hk2]
      exact ihA k hL
    | none =>
      have origin := ihB hL
      cases op with
      | create req =>
        rw [lastDispatchKey_cons_create s req ops j.id hL]
        refine ⟨by simp, fun _ => ?_⟩
        by_cases hv : ValidSpec req
        · simp only [step, postJobs_of_valid s req hv] at origin
          rcases origin with ⟨j0, hj0, he, hl⟩ | ⟨hge, hl⟩
          · simp only [List.mem_append, List.mem_singleton] at hj0
            rcases hj0 with hj0 | hj0
            · exact Or.inl ⟨j0, hj0, he, hl⟩
            · right
              rw [hj0] at he hl
              simp only [newJobOf] at he hl
              exact ⟨by omega, hl⟩
          · exact Or.inr ⟨by omega, hl⟩
        · obtain ⟨msg, hm⟩ := postJobs_invalid_eq s req hv
          simp only [step, hm] at origin
          exact origin
      | delete id2 =>
        rw [lastDispatchKey_cons_delete s id2 ops j.id hL]
        refine ⟨by simp, fun _ => ?_⟩
        rcases origin with ⟨j0, hj0, he, hl⟩ | ⟨hge, hl⟩
        · exact Or.inl ⟨j0, (deleteJob_sublist s id2).subset hj0, he, hl⟩
        · simp only [step, deleteJob_nextJobId] at hge
          exact Or.inr ⟨hge, hl⟩
      | scan now keyNow =>
        rw [lastDispatchKey_cons_scan s now keyNow ops j.id hL]
        have hdis : ∀ id ∈ (checkAllJobsAndRun s now keyNow).2, ∃ j1 ∈ s.jobs, j1.id = id ∧
            dispatches now.getMinutes now.getHours now.getDay (getCurrentMinuteKey keyNow) j1 =
              true := by
          intro id hid
          rw [scan_dispatched] at hid
          obtain ⟨j1, hj1, he⟩ := List.mem_map.mp hid
          exact ⟨j1, (List.mem_filter.mp hj1).1, he, (List.mem_filter.mp hj1).2⟩
        rcases origin with ⟨j0, hj0, he, hl⟩ | ⟨hge, hl⟩
        · obtain ⟨j00, hj00, he0, hc⟩ := mem_scan_jobs s now keyNow j0 hj0
          rcases hc with ⟨hd, hc⟩ | ⟨hd, hc⟩
          · have hmem : j.id ∈ (checkAllJobsAndRun s now keyNow).2 := by
              rw [scan_dispatched]
              exact List.mem_map.mpr ⟨j00, List.mem_filter.mpr ⟨hj00, hd⟩, by rw [he0, he]⟩
            simp only [hmem, if_true, reduceCtorEq, false_implies, and_true]
            intro k hk
            rw [← Option.some.inj hk, hl, hc]
          · have hmem : j.id ∉ (checkAllJobsAndRun s now keyNow).2 := by
              intro hin
              obtain ⟨j1, hj1, he1, hd1⟩ := hdis _ hin
              have : j1 = j00 :=
                List.inj_on_of_nodup_map hf.1 hj1 hj00 (by rw [he1, he0, he])
              rw [this, hd] at hd1
              exact Bool.noConfusion hd1
            simp only [hmem, if_false, reduceCtorEq, false_implies, implies_true, true_and,
              forall_const]
            exact Or.inl ⟨j00, hj00, by rw [he0, he], by rw [hl, hc]⟩
        · have hmem : j.id ∉ (checkAllJobsAndRun s now keyNow).2 := by
            intro hin
            obtain ⟨j1, hj1, he1, _⟩ := hdis _ hin
            have := hf.2 j1 hj1
            simp only [step, scan_nextJobId] at hge
            omega
          simp only [hmem, if_false, reduceCtorEq, false_implies, implies_true, true_and,
            forall_const]
          simp only [step, scan_nextJobId] at hge
          exact Or.inr ⟨hge, hl⟩

/-! ## C14 -/

/-- C14 (lastRun records the most recent dispatch decision): after any sequence of
create, delete and scan events from the initial state, the `lastRun` of every
stored job is the minute key of the most recent scan of the sequence that
dispatched its id, and it is null exactly when no scan of the sequence dispatched
that id. -/
theorem lastRun_records_most_recent_dispatch (ops : List Op) :
    ∀ j ∈ (runOps Store.init ops).jobs,
      j.lastRun = lastDispatchKey Store.init ops j.id ∧
      (j.lastRun = none ↔ j.id ∉ dispatchLog Store.init ops) := by
  intro j hj
  obtain ⟨hA, hB⟩ := lastRun_eq_lastDispatchKey ops Store.init idsFresh_init j hj
  have key : j.lastRun = lastDispatchKey Store.init ops j.id := by
    cases hL : lastDispatchKey Store.init ops j.id with
    | some k => exact hA k hL
    | none =>
      rcases hB hL with ⟨j0, hj0, _⟩ | ⟨_, hl⟩
      · simp [Store.init] at hj0
      · exact hl
  exact ⟨key, by rw [key]; exact lastDispatchKey_eq_none_iff ops Store.init j.id⟩

/-- C14 on a run: an hourly job for minute 1 is dispatched by the scans at
2024-01-01T00:01Z and 01:01Z, an hourly job for minute 30 created in between is
never dispatched; the first ends with the key of the second scan, the other with
null. -/
theorem lastRun_records_most_recent_dispatch_witness :
    (runOps Store.init
      [.create ⟨.str "hourly", .num 1, .undefined, .undefined⟩,
       .scan ⟨1704067260000, 0⟩ ⟨1704067260000, 0⟩,
       .create ⟨.str "hourly", .num 30, .undefined, .undefined⟩,
       .scan ⟨1704070860000, 0⟩ ⟨1704070860000, 0⟩]).jobs =
      [⟨1, .str "hourly", .num 1, .undefined, .undefined, some "2024-01-01T01:01"⟩,
       ⟨2, .str "hourly", .num 30, .undefined, .undefined, none⟩] ∧
    some "2024-01-01T01:01" = lastDispatchKey Store.init
      [.create ⟨.str "hourly", .num 1, .undefined, .undefined⟩,
       .scan ⟨1704067260000, 0⟩ ⟨1704067260000, 0⟩,
       .create ⟨.str "hourly", .num 30, .undefined, .undefined⟩,
       .scan ⟨1704070860000, 0⟩ ⟨1704070860000, 0⟩] 1 ∧
    none = lastDispatchKey Store.init
      [.create ⟨.str "hourly", .num 1, .undefined, .undefined⟩,
       .scan ⟨1704067260000, 0⟩ ⟨1704067260000, 0⟩,
       .create ⟨.str "hourly", .num 30, .undefined, .undefined⟩,
       .scan ⟨1704070860000, 0⟩ ⟨1704070860000, 0⟩] 2 :=
  ⟨by decide,
    (lastRun_records_most_recent_dispatch _
      ⟨1, .str "hourly", .num 1, .undefined, .undefined, some "2024-01-01T01:01"⟩
      (by decide)).1,
    (lastRun_records_most_recent_dispatch _
      ⟨2, .str "hourly", .num 30, .undefined, .undefined, none⟩ (by decide)).1⟩

/-! ## C17 -/

/-- C17 (alignment delay): for seconds `s` in 0..59 and milliseconds `ms` in
0..999 the delay `(60 - s) * 1000 - ms` is strictly positive and at most 60000,
and `s * 1000 + ms` plus the delay is 60000; on a minute boundary the delay is a
full 60000 ms; and for every start instant, the seconds and milliseconds that
`startSchedulerLoop` reads are in those ranges and the instant plus its delay is
the next minute boundary. -/
theorem alignment_delay (s ms : Nat) (hs : s ≤ 59) (hms : ms ≤ 999) :
    0 < msUntilNextMinute s ms ∧
    msUntilNextMinute s ms ≤ 60000 ∧
    (s : Int) * 1000 + (ms : Int) + msUntilNextMinute s ms = 60000 ∧
    msUntilNextMinute 0 0 = 60000 ∧
    ∀ now : JSDate,
      now.getSeconds ≤ 59 ∧ now.getMilliseconds ≤ 999 ∧
      (now.time : Int) + startSchedulerLoop now = ((now.minuteIndex : Int) + 1) * 60000 := by
  refine ⟨?_, ?_, ?_, ?_, ?_⟩
  · simp only [msUntilNextMinute]; omega
  · simp only [msUntilNextMinute]; omega
  · simp only [msUntilNextMinute]; omega
  · simp only [msUntilNextMinute]; omega
  · intro now
    simp only [startSchedulerLoop, msUntilNextMinute, JSDate.getSeconds,
      JSDate.getMilliseconds, JSDate.localTime, JSDate.minuteIndex]
    omega

/-- C17 at 12.345 s past the minute: the delay is 47655 ms. -/
theorem alignment_delay_witness :
    msUntilNextMinute 12 345 = 47655 ∧ 0 < msUntilNextMinute 12 345 ∧
    msUntilNextMinute 12 345 ≤ 60000 :=
  ⟨by decide, (alignment_delay 12 345 (by decide) (by decide)).1,
    (alignment_delay 12 345 (by decide) (by decide)).2.1⟩

/-! ## C19 -/

/-- C19 (dispatch order is store order): the ids that one scan hands to
`runJobInWorker` are, in call order, a subsequence of the ids of the store in store
order, so each is the id of a stored job; in a reachable store that order is
ascending in the id and no id is dispatched twice by the scan. -/
theorem dispatch_order_is_store_order (s : Store) (now keyNow : JSDate) :
    List.Sublist (checkAllJobsAndRun s now keyNow).2 (s.jobs.map Job.id) ∧
    (∀ id ∈ (checkAllJobsAndRun s now keyNow).2, ∃ j ∈ s.jobs, j.id = id) ∧
    (Reachable s →
      List.Pairwise (· < ·) (checkAllJobsAndRun s now keyNow).2 ∧
      (checkAllJobsAndRun s now keyNow).2.Nodup) := by
  have hsub : List.Sublist (checkAllJobsAndRun s now keyNow).2 (s.jobs.map Job.id) := by
    rw [scan_dispatched]
    exact (List.filter_sublist _).map Job.id
  refine ⟨hsub, ?_, ?_⟩
  · intro id hid
    obtain ⟨j, hj, he⟩ := List.mem_map.mp (hsub.subset hid)
    exact ⟨j, hj, he⟩
  · intro hr
    exact ⟨List.Pairwise.sublist hsub (idsSorted_of_reachable s hr),
      List.Nodup.sublist hsub (idsFresh_of_reachable s hr).1⟩

/-- C19 on the store reached by three creates, scanned at 2024-01-01T00:01Z: the
hourly jobs 1 and 3 for minute 1 are dispatched in that order, job 2 is not. -/
theorem dispatch_order_is_store_order_witness :
    Reachable ⟨[⟨1, .str "hourly", .num 1, .undefined, .undefined, none⟩,
        ⟨2, .str "hourly", .num 2, .undefined, .undefined, none⟩,
        ⟨3, .str "hourly", .num 1, .undefined, .undefined, none⟩], 4⟩ ∧
    (checkAllJobsAndRun ⟨[⟨1, .str "hourly", .num 1, .undefined, .undefined, none⟩,
        ⟨2, .str "hourly", .num 2, .undefined, .undefined, none⟩,
        ⟨3, .str "hourly", .num 1, .undefined, .undefined, none⟩], 4⟩
      ⟨1704067260000, 0⟩ ⟨1704067260000, 0⟩).2 = [1, 3] ∧
    List.Pairwise (· < ·)
      (checkAllJobsAndRun ⟨[⟨1, .str "hourly", .num 1, .undefined, .undefined, none⟩,
        ⟨2, .str "hourly", .num 2, .undefined, .undefined, none⟩,
        ⟨3, .str "hourly", .num 1, .undefined, .undefined, none⟩], 4⟩
      ⟨1704067260000, 0⟩ ⟨1704067260000, 0⟩).2 :=
  have hr : Reachable ⟨[⟨1, .str "hourly", .num 1, .undefined, .undefined, none⟩,
        ⟨2, .str "hourly", .num 2, .undefined, .undefined, none⟩,
        ⟨3, .str "hourly", .num 1, .undefined, .undefined, none⟩], 4⟩ :=
    ⟨[.create ⟨.str "hourly", .num 1, .undefined, .undefined⟩,
      .create ⟨.str "hourly", .num 2, .undefined, .undefined⟩,
      .create ⟨.str "hourly", .num 1, .undefined, .undefined⟩], by decide⟩
  ⟨hr, by decide, ((dispatch_order_is_store_order _ _ _).2.2 hr).1⟩

/-! ## C20 -/

theorem createdIds_range (ops : List Op) :
    ∀ s : Store,
      createdIds s ops = List.range' s.nextJobId (createdIds s ops).length ∧
      (runOps s ops).nextJobId = s.nextJobId + (createdIds s ops).length := by
  induction ops with
  | nil => intro s; simp [createdIds, runOps]
  | cons op ops ih =>
    intro s
    cases op with
    | create req =>
      by_cases hv : ValidSpec req
      · obtain ⟨h1, h2⟩ := ih (postJobs s req).1
        have hn : (postJobs s req).1.nextJobId = s.nextJobId + 1 := by
          rw [postJobs_of_valid s req hv]
        rw [hn] at h1 h2
        rw [createdIds_create_valid s req ops hv]
        simp only [runOps, step, List.length_cons, List.range'_succ]
        refine ⟨by rw [← h1], by omega⟩
      · obtain ⟨msg, hm⟩ := postJobs_invalid_eq s req hv
        rw [createdIds_create_invalid s req ops hv]
        simp only [runOps, step, hm]
        exact ih s
    | delete id =>
      obtain ⟨h1, h2⟩ := ih (deleteJob s id).1
      rw [deleteJob_nextJobId] at h1 h2
      rw [createdIds_delete]
      exact ⟨h1, h2⟩
    | scan now keyNow =>
      obtain ⟨h1, h2⟩ := ih (checkAllJobsAndRun s now keyNow).1
      rw [scan_nextJobId] at h1 h2
      rw [createdIds_scan]
      exact ⟨h1, h2⟩

/-- C20 (ids are consecutive from 1): over any sequence of create, delete and scan
events from the initial state, the ids returned by the successful creates are 1, 2,
3, ... in order (the k-th one is k), and `nextJobId` is 1 plus the number of
successful creates. -/
theorem ids_consecutive_from_one (ops : List Op) :
    createdIds Store.init ops = List.range' 1 (createdIds Store.init ops).length ∧
    (∀ k, k < (createdIds Store.init ops).length →
      (createdIds Store.init ops).get? k = some (k + 1)) ∧
    (runOps Store.init ops).nextJobId = 1 + (createdIds Store.init ops).length := by
  obtain ⟨h1, h2⟩ := createdIds_range ops Store.init
  refine ⟨h1, ?_, h2⟩
  intro k hk
  have h3 : Store.init.nextJobId = 1 := rfl
  rw [h3] at h1
  rw [h1, List.get?_eq_getElem?, List.getElem?_range']
  · simp only [List.length_range', one_mul]
    rw [Nat.add_comm]
  · simpa using hk

/-! ## C18 -/

theorem postJobs_reject_body (s : Store) (req : ReqBody) (h : ¬ ValidSpec req) :
    (postJobs s req).2.body =
      .error (if req.type = .str "hourly" then msgHourly
        else if req.type = .str "daily" then msgDaily
        else if req.type = .str "weekly" then msgWeekly
        else msgType) := by
  by_cases h1 : req.type = .str "hourly"
  · have hm : req.minute.notNumberInRange 0 59 = true := by
      rw [notNumberInRange_eq_true]
      intro hm
      apply h
      refine ⟨Or.inl h1, hm, ?_, ?_⟩
      · intro h'; rcases h' with h' | h' <;> rw [h1] at h' <;> simp at h'
      · intro h'; rw [h1] at h'; simp at h'
    simp [postJobs, h1, JVal.truthy, includesType, hm]
  · by_cases h2 : req.type = .str "daily"
    · have hm : (req.hour.notNumberInRange 0 23 || req.minute.notNumberInRange 0 59) = true := by
        by_contra hc
        simp only [Bool.or_eq_true, not_or, Bool.not_eq_true, notNumberInRange_eq_false] at hc
        apply h
        refine ⟨Or.inr (Or.inl h2), hc.2, fun _ => hc.1, ?_⟩
        intro h'; rw [h2] at h'; simp at h'
      simp only [Bool.or_eq_true] at hm
      simp [postJobs, h2, JVal.truthy, includesType, hm]
    · by_cases h3 : req.type = .str "weekly"
      · have hm : (req.dayOfWeek.notNumberInRange 0 6 || req.hour.notNumberInRange 0 23 ||
            req.minute.notNumberInRange 0 59) = true := by
          by_contra hc
          simp only [Bool.or_eq_true, not_or, Bool.not_eq_true, notNumberInRange_eq_false] at hc
          apply h
          exact ⟨Or.inr (Or.inr h3), hc.2, fun _ => hc.1.2, fun _ => hc.1.1⟩
        simp only [Bool.or_eq_true] at hm
        simp [postJobs, h3, JVal.truthy, includesType, hm]
      · simp [postJobs, h1, h2, h3, includesType]

/-- C18 (validation messages distinguish the failure by type): for a rejected body
the error message is the type message exactly when the type is not one of
"hourly", "daily", "weekly" (absent included), whatever the other fields, and
otherwise it is the hourly, daily or weekly message according to the type; the
four messages are pairwise distinct. -/
theorem validation_message_by_type (s : Store) (req : ReqBody) (h : ¬ ValidSpec req) :
    ((postJobs s req).2.body = .error msgType ↔
      ¬ (req.type = .str "hourly" ∨ req.type = .str "daily" ∨ req.type = .str "weekly")) ∧
    (req.type = .str "hourly" → (postJobs s req).2.body = .error msgHourly) ∧
    (req.type = .str "daily" → (postJobs s req).2.body = .error msgDaily) ∧
    (req.type = .str "weekly" → (postJobs s req).2.body = .error msgWeekly) ∧
    msgType ≠ msgHourly ∧ msgType ≠ msgDaily ∧ msgType ≠ msgWeekly ∧
    msgHourly ≠ msgDaily ∧ msgHourly ≠ msgWeekly ∧ msgDaily ≠ msgWeekly := by
  have hb := postJobs_reject_body s req h
  have d1 : msgType ≠ msgHourly := by decide
  have d2 : msgType ≠ msgDaily := by decide
  have d3 : msgType ≠ msgWeekly := by decide
  refine ⟨?_, ?_, ?_, ?_, d1, d2, d3, by decide, by decide, by decide⟩
  · rw [hb]
    by_cases h1 : req.type = .str "hourly"
    · simp only [h1, if_true, Body.error.injEq, true_or, not_true_eq_false, iff_false]
      exact fun e => d1 e.symm
    · by_cases h2 : req.type = .str "daily"
      · simp only [h2, if_true, Body.error.injEq, true_or, or_true, not_true_eq_false,
          iff_false, reduceCtorEq, if_false]
        exact fun e => d2 e.symm
      · by_cases h3 : req.type = .str "weekly"
        · simp only [h3, if_true, Body.error.injEq, or_true, not_true_eq_false,
            iff_false, reduceCtorEq, if_false]
          exact fun e => d3 e.symm
        · simp [h1, h2, h3]
  · intro h1; rw [hb, if_pos h1]
  · intro h2
    have h1 : ¬ req.type = .str "hourly" := by rw [h2]; simp
    rw [hb, if_neg h1, if_pos h2]
  · intro h3
    have h1 : ¬ req.type = .str "hourly" := by rw [h3]; simp
    have h2 : ¬ req.type = .str "daily" := by rw [h3]; simp
    rw [hb, if_neg h1, if_neg h2, if_pos h3]

/-- C18 on two rejected bodies: a daily body without hour gets the daily message,
a body without type gets the type message even though its other fields are in
range. -/
theorem validation_message_by_type_witness :
    (postJobs Store.init ⟨.str "daily", .num 30, .undefined, .undefined⟩).2.body =
      .error msgDaily ∧
    (postJobs Store.init ⟨.undefined, .num 30, .num 9, .num 3⟩).2.body = .error msgType :=
  ⟨(validation_message_by_type Store.init ⟨.str "daily", .num 30, .undefined, .undefined⟩
      (by decide)).2.2.1 rfl,
    (validation_message_by_type Store.init ⟨.undefined, .num 30, .num 9, .num 3⟩
      (by decide)).1.mpr (by decide)⟩

/-! ## Lemmas on workers -/

theorem get?_set_self {α : Type} (a : α) :
    ∀ (l : List α) (w : Nat) (r : α), l.get? w = some r → (l.set w a).get? w = some a := by
  intro l
  induction l with
  | nil => intro w r h; simp at h
  | cons x xs ih =>
    intro w r h
    cases w with
    | zero => rfl
    | succ n => exact ih n r h

theorem map_set_same {α β : Type} (f : α → β) (a : α) :
    ∀ (l : List α) (w : Nat) (r : α), l.get? w = some r → f a = f r →
      (l.set w a).map f = l.map f := by
  intro l
  induction l with
  | nil => intro w r h; simp at h
  | cons x xs ih =>
    intro w r h hf
    cases w with
    | zero =>
      have : x = r := Option.some.inj h
      simp only [List.set_cons_zero, List.map_cons, hf, this]
    | succ n =>
      simp only [List.set_cons_succ, List.map_cons]
      rw [ih n r h hf]

theorem emit_jobId (r : WorkerRec) (sig : WorkerSignal) : (r.emit sig).jobId = r.jobId := by
  cases sig <;> simp only [WorkerRec.emit] <;> split <;> rfl

theorem emit_promise_of_settled (r : WorkerRec) (sig : WorkerSignal)
    (h : r.promise ≠ .pending) : (r.emit sig).promise = r.promise := by
  cases hp : r.promise with
  | pending => exact absurd hp h
  | fulfilled =>
    cases sig <;> simp only [WorkerRec.emit] <;> split <;>
      simp [hp, PromiseState.resolve, PromiseState.reject]
  | rejected =>
    cases sig <;> simp only [WorkerRec.emit] <;> split <;>
      simp [hp, PromiseState.resolve, PromiseState.reject]

theorem emit_fresh_failure (jobId : Nat) (sig : WorkerSignal) (h : sig.isFailure = true) :
    ((runJobInWorker jobId).emit sig).promise = .rejected := by
  cases sig with
  | message done =>
    have hd : done.truthy = false := by simpa [WorkerSignal.isFailure] using h
    simp [WorkerRec.emit, runJobInWorker, hd, PromiseState.reject]
  | error => simp [WorkerRec.emit, runJobInWorker, PromiseState.reject]
  | exit code =>
    have hc : code ≠ 0 := by simpa [WorkerSignal.isFailure] using h
    simp [WorkerRec.emit, runJobInWorker, hc, PromiseState.reject]

theorem emit_fresh_success (jobId : Nat) (sig : WorkerSignal) (h : sig.isSuccess = true) :
    ((runJobInWorker jobId).emit sig).promise = .fulfilled := by
  cases sig with
  | message done =>
    have hd : done.truthy = true := by simpa [WorkerSignal.isSuccess] using h
    simp [WorkerRec.emit, runJobInWorker, hd, PromiseState.resolve]
  | error => simp [WorkerSignal.isSuccess] at h
  | exit code => simp [WorkerSignal.isSuccess] at h

theorem step_signal_store (sys : Scheduler) (w : Nat) (sig : WorkerSignal) :
    (sys.step (.signal w sig)).store = sys.store := by
  simp only [Scheduler.step]
  split <;> rfl

theorem step_signal_jobIds (sys : Scheduler) (w : Nat) (sig : WorkerSignal) :
    (sys.step (.signal w sig)).workers.map WorkerRec.jobId =
      sys.workers.map WorkerRec.jobId := by
  simp only [Scheduler.step]
  split
  · rfl
  · rename_i r hr
    exact map_set_same WorkerRec.jobId _ _ w r hr (emit_jobId r sig)

theorem step_signal_of_get (sys : Scheduler) (w : Nat) (sig : WorkerSignal) (r : WorkerRec)
    (hr : sys.workers.get? w = some r) :
    (sys.step (.signal w sig)).workers.get? w = some (r.emit sig) ∧
    (sys.step (.signal w sig)).errorLog = sys.errorLog ++
      (if r.promise = .pending ∧ (r.emit sig).promise = .rejected then [failureLine r.jobId]
       else []) := by
  simp only [Scheduler.step, hr]
  exact ⟨get?_set_self _ _ w r hr, trivial⟩

theorem run_signals_settled (w : Nat) (later : List WorkerSignal) :
    ∀ (sys : Scheduler) (r : WorkerRec), sys.workers.get? w = some r → r.promise ≠ .pending →
      (sys.run (later.map (Event.signal w))).promiseOf w = some r.promise ∧
      (sys.run (later.map (Event.signal w))).errorLog = sys.errorLog := by
  induction later with
  | nil =>
    intro sys r hr _
    simp only [List.map_nil, Scheduler.run, Scheduler.promiseOf, hr, Option.map_some', and_self]
  | cons sig sigs ih =>
    intro sys r hr hp
    obtain ⟨h1, h2⟩ := step_signal_of_get sys w sig r hr
    have h3 := emit_promise_of_settled r sig hp
    obtain ⟨h4, h5⟩ := ih (sys.step (.signal w sig)) (r.emit sig) h1 (by rw [h3]; exact hp)
    simp only [List.map_cons, Scheduler.run]
    rw [h4, h5, h2, h3]
    simp [hp]

theorem run_store (evs : List Event) :
    ∀ sys : Scheduler, (sys.run evs).store = runOps sys.store (opsOf evs) := by
  induction evs with
  | nil => intro sys; rfl
  | cons ev evs ih =>
    intro sys
    cases ev with
    | op o =>
      simp only [Scheduler.run, opsOf, runOps]
      rw [ih]
      rfl
    | signal w sig =>
      simp only [Scheduler.run, opsOf]
      rw [ih, step_signal_store]

theorem run_jobIds (evs : List Event) :
    ∀ sys : Scheduler, (sys.run evs).workers.map WorkerRec.jobId =
      sys.workers.map WorkerRec.jobId ++ dispatchLog sys.store (opsOf evs) := by
  induction evs with
  | nil => intro sys; simp [Scheduler.run, opsOf, dispatchLog]
  | cons ev evs ih =>
    intro sys
    cases ev with
    | op o =>
      simp only [Scheduler.run, opsOf, dispatchLog]
      rw [ih]
      simp only [Scheduler.step, List.map_append, List.map_map, List.append_assoc]
      congr 2
      simp [Function.comp_def, runJobInWorker]
    | signal w sig =>
      simp only [Scheduler.run, opsOf]
      rw [ih, step_signal_store, step_signal_jobIds]

theorem opsOf_map_signal (w : Nat) (sigs : List WorkerSignal) :
    opsOf (sigs.map (Event.signal w)) = [] := by
  induction sigs with
  | nil => rfl
  | cons sig sigs ih => simpa [opsOf] using ih

/-! ## C15 -/

/-- C15 (failure isolation): an event of a worker never changes the store, so two
sequences of events with the same requests and scans, whatever events their
workers deliver in between, end in the same store and start workers for the same
job ids in the same order; in particular, after any event of any worker, a stored
job whose `lastRun` is `k` is dispatched by a scan whose minute key differs from
`k` and whose instant matches the job's rule. -/
theorem failure_isolation (sys : Scheduler) (evs1 evs2 : List Event)
    (h : opsOf evs1 = opsOf evs2) :
    (sys.run evs1).store = (sys.run evs2).store ∧
    (sys.run evs1).workers.map WorkerRec.jobId = (sys.run evs2).workers.map WorkerRec.jobId ∧
    (∀ w sig, (sys.step (.signal w sig)).store = sys.store) ∧
    (∀ j ∈ sys.store.jobs, ∀ (k : String) (w : Nat) (sig : WorkerSignal) (now keyNow : JSDate),
      j.lastRun = some k → getCurrentMinuteKey keyNow ≠ k → RuleMatches now j →
      j.id ∈ (checkAllJobsAndRun (sys.step (.signal w sig)).store now keyNow).2) := by
  refine ⟨?_, ?_, fun w sig => step_signal_store sys w sig, ?_⟩
  · rw [run_store, run_store, h]
  · rw [run_jobIds, run_jobIds, h]
  · intro j hj k w sig now keyNow hl hk hr
    rw [step_signal_store, scan_dispatched]
    apply List.mem_map.mpr
    refine ⟨j, List.mem_filter.mpr ⟨hj, ?_⟩, rfl⟩
    rw [dispatches_iff]
    refine ⟨?_, hr⟩
    rw [hl]
    intro he
    exact hk (Option.some.inj he).symm

/-- C15 on two runs from start-up with the same requests and scans (an hourly job
for minute 1, scanned at 2024-01-01T00:01Z and again at 01:01Z): in the first the
worker of the first dispatch reports success, in the second it emits an error and
exits with code 1.  Only the second run logs a failure; both end in the same store
and dispatch job 1 at both scans. -/
theorem failure_isolation_witness :
    (Scheduler.start.run
      [.op (.create ⟨.str "hourly", .num 1, .undefined, .undefined⟩),
       .op (.scan ⟨1704067260000, 0⟩ ⟨1704067260000, 0⟩),
       .signal 0 .error, .signal 0 (.exit 1),
       .op (.scan ⟨1704070860000, 0⟩ ⟨1704070860000, 0⟩)]).errorLog = [failureLine 1] ∧
    (Scheduler.start.run
      [.op (.create ⟨.str "hourly", .num 1, .undefined, .undefined⟩),
       .op (.scan ⟨1704067260000, 0⟩ ⟨1704067260000, 0⟩),
       .signal 0 (.message (.bool true)), .signal 0 (.exit 0),
       .op (.scan ⟨1704070860000, 0⟩ ⟨1704070860000, 0⟩)]).errorLog = [] ∧
    (Scheduler.start.run
      [.op (.create ⟨.str "hourly", .num 1, .undefined, .undefined⟩),
       .op (.scan ⟨1704067260000, 0⟩ ⟨1704067260000, 0⟩),
       .signal 0 .error, .signal 0 (.exit 1),
       .op (.scan ⟨1704070860000, 0⟩ ⟨1704070860000, 0⟩)]).workers.map WorkerRec.jobId =
      [1, 1] ∧
    (Scheduler.start.run
      [.op (.create ⟨.str "hourly", .num 1, .undefined, .undefined⟩),
       .op (.scan ⟨1704067260000, 0⟩ ⟨1704067260000, 0⟩),
       .signal 0 .error, .signal 0 (.exit 1),
       .op (.scan ⟨1704070860000, 0⟩ ⟨1704070860000, 0⟩)]).store =
    (Scheduler.start.run
      [.op (.create ⟨.str "hourly", .num 1, .undefined, .undefined⟩),
       .op (.scan ⟨1704067260000, 0⟩ ⟨1704067260000, 0⟩),
       .signal 0 (.message (.bool true)), .signal 0 (.exit 0),
       .op (.scan ⟨1704070860000, 0⟩ ⟨1704070860000, 0⟩)]).store :=
  ⟨by decide, by decide, by decide,
    (failure_isolation Scheduler.start _ _ (by decide)).1⟩

/-! ## C16 -/

/-- C16 as stated fails: the message `{done: "yes"}` is a message without
`done == true`, yet `msg.done ? resolve() : reject(...)` resolves the promise of a
freshly started worker and no failure line is written. -/
theorem failure_forms_counterexample :
    (WorkerSignal.message (.str "yes")).isFailureSpec = true ∧
    ((runJobInWorker 7).emit (.message (.str "yes"))).promise = .fulfilled ∧
    (Scheduler.step ⟨Store.init, [runJobInWorker 7], []⟩
      (.signal 0 (.message (.str "yes")))).errorLog = [] := by
  decide

/-- C16, amended (the three failure forms are handled alike): when the first event
that a freshly started worker for `jobId` delivers is a message whose `done` is
falsy, an error event, or an exit with a non-zero code, its promise is rejected
and one failure line naming `jobId` is written; when it is a message whose `done`
is truthy, such as `{done: true}`, the promise is fulfilled and nothing is
written; whatever events the worker delivers afterwards, the promise stays as it
is, no further line is written, the store is as before (the job is not removed)
and no worker is started (the job is not retried). -/
theorem failure_forms_handled_alike (sys : Scheduler) (w jobId : Nat)
    (hw : sys.workers.get? w = some (runJobInWorker jobId))
    (sig : WorkerSignal) (later : List WorkerSignal) :
    (sig.isFailure = true →
      ((sys.step (.signal w sig)).run (later.map (Event.signal w))).promiseOf w =
        some .rejected ∧
      ((sys.step (.signal w sig)).run (later.map (Event.signal w))).errorLog =
        sys.errorLog ++ [failureLine jobId]) ∧
    (sig.isSuccess = true →
      ((sys.step (.signal w sig)).run (later.map (Event.signal w))).promiseOf w =
        some .fulfilled ∧
      ((sys.step (.signal w sig)).run (later.map (Event.signal w))).errorLog =
        sys.errorLog) ∧
    ((sys.step (.signal w sig)).run (later.map (Event.signal w))).store = sys.store ∧
    ((sys.step (.signal w sig)).run (later.map (Event.signal w))).workers.map
      WorkerRec.jobId = sys.workers.map WorkerRec.jobId := by
  obtain ⟨h1, h2⟩ := step_signal_of_get sys w sig _ hw
  refine ⟨?_, ?_, ?_, ?_⟩
  · intro hf
    have hp := emit_fresh_failure jobId sig hf
    obtain ⟨h3, h4⟩ := run_signals_settled w later (sys.step (.signal w sig)) _ h1
      (by rw [hp]; simp)
    rw [h3, h4, h2, hp]
    simp [runJobInWorker]
  · intro hs
    have hp := emit_fresh_success jobId sig hs
    obtain ⟨h3, h4⟩ := run_signals_settled w later (sys.step (.signal w sig)) _ h1
      (by rw [hp]; simp)
    rw [h3, h4, h2, hp]
    simp
  · rw [run_store, opsOf_map_signal, step_signal_store]
    rfl
  · rw [run_jobIds, opsOf_map_signal, step_signal_jobIds]
    simp [dispatchLog]

/-- C16, amended, on a worker for job 7 that emits an error and then exits with
code 1: one line, "Job #7 failed:", is written. -/
theorem failure_forms_handled_alike_witness :
    failureLine 7 = "Job #7 failed:" ∧
    ((Scheduler.step ⟨Store.init, [runJobInWorker 7], []⟩ (.signal 0 .error)).run
      ([WorkerSignal.exit 1].map (Event.signal 0))).errorLog = [] ++ [failureLine 7] :=
  ⟨by decide,
    ((failure_forms_handled_alike ⟨Store.init, [runJobInWorker 7], []⟩ 0 7 rfl .error
      [.exit 1]).1 rfl).2⟩

end JobScheduler
